import Mathlib

/-!
Verification of the covered-call backtest engine (lib/backtest.ts and
lib/optionMath.ts) against its natural-language specification.

Modelling conventions:
* JavaScript numbers are modelled as real numbers (the idealized arithmetic
  the formulas denote); machine floating point is not modelled.
* Array indices, contract counts and calendar quantities are modelled as
  naturals / integers.
* Optional or possibly-non-numeric TypeScript fields (ivOverride,
  targetDelta when NaN, rollDeltaThreshold, rollDaysBeforeExpiry) are
  modelled as Option values: none stands for absent / null / non-finite,
  matching the typeof/isFinite guards in the source.
* A calendar date string YYYY-MM-DD is modelled as a year/month/day triple;
  the JS UTC Date arithmetic used by getISOWeek is modelled by the standard
  civil-calendar/rata-die conversion algorithms.
-/

/-! ### Calendar model (for getISOWeek / generateCycleBoundaries) -/

/-- A calendar date (proleptic Gregorian), modelling the YYYY-MM-DD strings
of the input series.  Valid dates have 1 ≤ m ≤ 12 and a valid day of month;
the model is used on valid dates only. -/
structure Ymd where
  y : ℕ
  m : ℕ
  d : ℕ
deriving DecidableEq, Repr, Inhabited

/-- Days since 0000-03-01 of a civil date (standard rata-die computation,
models the day count underlying JS UTC Date arithmetic). -/
def daysFromCivil (dt : Ymd) : ℕ :=
  let y := if dt.m ≤ 2 then dt.y - 1 else dt.y
  let era := y / 400
  let yoe := y % 400
  let mp := (dt.m + 9) % 12
  let doy := (153 * mp + 2) / 5 + dt.d - 1
  let doe := yoe * 365 + yoe / 4 - yoe / 100 + doy
  era * 146097 + doe

/-- Civil date from a day count (inverse of daysFromCivil). -/
def civilFromDays (z : ℕ) : Ymd :=
  let era := z / 146097
  let doe := z % 146097
  let yoe := (doe - doe / 1460 + doe / 36524 - doe / 146096) / 365
  let y := yoe + era * 400
  let doy := doe - (365 * yoe + yoe / 4 - yoe / 100)
  let mp := (5 * doy + 2) / 153
  let d := doy - (153 * mp + 2) / 5 + 1
  let m := if mp < 10 then mp + 3 else mp - 9
  ⟨if m ≤ 2 then y + 1 else y, m, d⟩

/-- Day of week as JS Date.getUTCDay (0 = Sunday .. 6 = Saturday). -/
def jsGetUTCDay (dt : Ymd) : ℕ :=
  (daysFromCivil dt + 3) % 7

/-- The getISOWeek helper of lib/backtest.ts: shift the date to the Thursday
of its ISO week, then ceil((day-of-year difference + 1) / 7). -/
def getISOWeek (dt : Ymd) : ℕ :=
  let w := jsGetUTCDay dt
  let dayNum := if w = 0 then 7 else w
  let tmpDays := daysFromCivil dt + 4 - dayNum
  let tmp := civilFromDays tmpDays
  let yearStart := daysFromCivil ⟨tmp.y, 1, 1⟩
  (tmpDays - yearStart + 1 + 6) / 7

/-- The cycle frequency of the engine. -/
inductive BacktestFrequency where
  | weekly
  | monthly
deriving DecidableEq, Repr

/-- Grouping key used by generateCycleBoundaries: ISO week number for weekly
cycles, JS getUTCMonth (0-based month) for monthly cycles.  In both branches
the source compares only this key of adjacent days. -/
def cycleKey (freq : BacktestFrequency) (dt : Ymd) : ℕ :=
  match freq with
  | .weekly => getISOWeek dt
  | .monthly => dt.m - 1

/-- generateCycleBoundaries of lib/backtest.ts.  Both the weekly and the
monthly loops emit, for each maximal run of consecutive days sharing the
grouping key, the pair (first index of run, last index of run), in order. -/
def generateCycleBoundaries (dates : List Ymd) (freq : BacktestFrequency) : List ℕ :=
  ((dates.enum).splitBy (fun a b => cycleKey freq a.2 = cycleKey freq b.2)).flatMap
    (fun g =>
      match g.head?, g.getLast? with
      | some a, some b => [a.1, b.1]
      | _, _ => [])

/-- The flat boundary list grouped into (start, end) cycle pairs, as the
engine consumes it (indices b, b+1 for even b). -/
def pairUp : List ℕ → List (ℕ × ℕ)
  | a :: b :: rest => (a, b) :: pairUp rest
  | _ => []

/-! ### Option math (lib/optionMath.ts), over the reals -/

open Real in
/-- normCDF of lib/optionMath.ts: the Zelen-Severo polynomial approximation
of the standard normal CDF, with the exact source coefficients. -/
noncomputable def normCDF (x : ℝ) : ℝ :=
  let k : ℝ := 1 / (1 + 0.2316419 * |x|)
  let m : ℝ := 1 - (1 / Real.sqrt (2 * Real.pi)) * Real.exp (-0.5 * x * x) *
    (0.319381530 * k + (-0.356563782) * k ^ 2 + 1.781477937 * k ^ 3 +
      (-1.821255978) * k ^ 4 + 1.330274429 * k ^ 5)
  if 0 ≤ x then m else 1 - m

/-- bsCallPrice of lib/optionMath.ts: Black-Scholes European call with
continuous dividend yield, discounted intrinsic value in the degenerate
sigma ≤ 0 or T ≤ 0 case. -/
noncomputable def bsCallPrice (S K r q sigma T : ℝ) : ℝ :=
  if sigma ≤ 0 ∨ T ≤ 0 then max 0 (S * Real.exp (-q * T) - K * Real.exp (-r * T))
  else
    let d1 := (Real.log (S / K) + (r - q + 0.5 * sigma * sigma) * T) / (sigma * Real.sqrt T)
    let d2 := d1 - sigma * Real.sqrt T
    S * Real.exp (-q * T) * normCDF d1 - K * Real.exp (-r * T) * normCDF d2

/-- bsCallDelta of lib/optionMath.ts: step function 1/0 in the degenerate
case, else exp(-qT) * Phi(d1). -/
noncomputable def bsCallDelta (S K r q sigma T : ℝ) : ℝ :=
  if sigma ≤ 0 ∨ T ≤ 0 then (if K < S then 1 else 0)
  else
    let d1 := (Real.log (S / K) + (r - q + 0.5 * sigma * sigma) * T) / (sigma * Real.sqrt T)
    Real.exp (-q * T) * normCDF d1

open Classical in
/-- The bisection loop of findStrikeForTargetDelta after n iterations:
the (low, high) bracket, starting from (0.5 S, 2.0 S). -/
noncomputable def bisectStrike (S targetDelta r q sigma T : ℝ) : ℕ → ℝ × ℝ
  | 0 => (0.5 * S, 2.0 * S)
  | n + 1 =>
    let p := bisectStrike S targetDelta r q sigma T n
    let mid := (p.1 + p.2) / 2
    let d := bsCallDelta S mid r q sigma T
    if targetDelta < d then (mid, p.2) else (p.1, mid)

/-- findStrikeForTargetDelta of lib/optionMath.ts: 60 bisection iterations,
returning the midpoint of the final bracket. -/
noncomputable def findStrikeForTargetDelta (S targetDelta r q sigma T : ℝ) : ℝ :=
  let p := bisectStrike S targetDelta r q sigma T 60
  (p.1 + p.2) / 2

open Classical in
/-- estimateHV of lib/optionMath.ts with its default tradingDays = 252
inlined (no caller overrides it).  A log return is kept exactly when it is
finite in JS, i.e. when the price ratio is a positive (finite) number. -/
noncomputable def estimateHV (close : List ℝ) : ℝ :=
  let rets := (close.zip close.tail).filterMap
    (fun p => if 0 < p.2 / p.1 then some (Real.log (p.2 / p.1)) else none)
  if rets.length < 2 then 0.2
  else
    let mean := rets.sum / rets.length
    let v := (rets.map (fun b => (b - mean) * (b - mean))).sum / ((rets.length : ℝ) - 1)
    Real.sqrt v * Real.sqrt 252

/-! ### Engine data model (lib/backtest.ts) -/

/-- One input bar.  The source reads d.adjClose ?? d.close, so adjClose is
modelled as optional. -/
structure OhlcRow where
  date : Ymd
  close : ℝ
  adjClose : Option ℝ

/-- BacktestParams of lib/backtest.ts.  targetDelta, rollDeltaThreshold and
rollDaysBeforeExpiry are guarded in the source by typeof/Number.isFinite, and
ivOverride by truthiness; none models absent / null / non-finite there. -/
structure BacktestParams where
  initialCapital : ℝ
  shares : ℝ
  r : ℝ
  q : ℝ
  targetDelta : Option ℝ
  freq : BacktestFrequency
  ivOverride : Option ℝ
  reinvestPremium : Bool
  roundStrikeToInt : Bool
  skipEarningsWeek : Bool
  dynamicContracts : Bool
  enableRoll : Bool
  earningsDates : List Ymd
  rollDeltaThreshold : Option ℝ
  rollDaysBeforeExpiry : Option ℝ

/-- The open short-call position. -/
structure OpenCall where
  strike : ℝ
  premium : ℝ
  qty : ℤ
  sellIdx : ℕ
  expIdx : ℕ

/-- Settlement event type. -/
inductive EventType where
  | roll
  | expiry
deriving DecidableEq, Repr

/-- Roll reason label. -/
inductive RollReason where
  | delta
  | scheduled
deriving DecidableEq, Repr

/-- A settlement / roll event.  The source strips the internal index field
from the returned objects; we keep it (it is the day the event was emitted),
which only adds information. -/
structure SettlementEvent where
  index : ℕ
  date : Ymd
  totalValue : ℝ
  pnl : ℝ
  strike : ℝ
  underlying : ℝ
  premium : ℝ
  qty : ℤ
  typ : EventType
  delta : Option ℝ
  rollReason : Option RollReason

/-- The settlement note attached to a curve point (same fields minus the
index / date / totalValue, as in the source's out[s.index].settlement). -/
structure SettlementNote where
  pnl : ℝ
  strike : ℝ
  underlying : ℝ
  premium : ℝ
  qty : ℤ
  typ : EventType
  delta : Option ℝ
  rollReason : Option RollReason

/-- One output curve point. -/
structure CurvePoint where
  date : Ymd
  buyAndHold : ℝ
  coveredCall : ℝ
  underlyingPrice : ℝ
  callStrike : Option ℝ
  callDelta : Option ℝ
  settlement : Option SettlementNote

/-- The RunBacktestResult record. -/
structure RunBacktestResult where
  curve : List CurvePoint
  bhReturn : ℝ
  ccReturn : ℝ
  hv : ℝ
  ivUsed : ℝ
  bhShares : ℝ
  ccShares : ℝ
  settlements : List SettlementEvent
  rollEvents : List SettlementEvent
  ccWinRate : ℝ
  ccSettlementCount : ℕ
  effectiveTargetDelta : ℝ
  rollDeltaTrigger : ℝ

/-- The mutable per-run ledger state: cash, shares, open position. -/
structure EngState where
  cash : ℝ
  shares : ℝ
  openCall : Option OpenCall

/-- The per-run context: the input series and every quantity the source
computes once before the day loop (lines 115-191 of lib/backtest.ts). -/
structure Ctx where
  dates : List Ymd
  prices : List ℝ
  n : ℕ
  hv : ℝ
  iv : ℝ
  r : ℝ
  q : ℝ
  strikeTargetDelta : ℝ
  rollDeltaTrigger : ℝ
  scheduledRollOffset : Option ℤ
  reinvestPremium : Bool
  roundStrikeToInt : Bool
  skipEarningsWeek : Bool
  dynamicContracts : Bool
  enableRoll : Bool
  cyclePairs : List (ℕ × ℕ)
  earnIdx : List ℕ
  baseContractQty : ℤ
  initialCapital : ℝ
  sharesInit : ℝ

/-- The index the earnings-date map assigns to a date: the last input index
carrying that date (the source builds a Map, later set calls overwrite). -/
def lastIdxOf (dates : List Ymd) (d : Ymd) : Option ℕ :=
  ((dates.enum).filter (fun p => p.2 = d)).getLast?.map (fun p => p.1)

/-- The clampDelta helper (line 119): clamp into [0.05, 0.95]. -/
noncomputable def clampDelta (d : ℝ) : ℝ := min 0.95 (max 0.05 d)

/-- Pre-loop context construction (lines 115-191 of runBacktest). -/
noncomputable def mkCtx (ohlc : List OhlcRow) (params : BacktestParams) : Ctx :=
  let dates := ohlc.map (fun r => r.date)
  let prices := ohlc.map (fun r => r.adjClose.getD r.close)
  let hv := estimateHV prices
  let iv := match params.ivOverride with
    | some v => if 0 < v then v else hv
    | none => hv
  { dates := dates
    prices := prices
    n := ohlc.length
    hv := hv
    iv := iv
    r := params.r
    q := params.q
    strikeTargetDelta := clampDelta (params.targetDelta.getD 0.3)
    rollDeltaTrigger := clampDelta (params.rollDeltaThreshold.getD 0.7)
    scheduledRollOffset := params.rollDaysBeforeExpiry.map (fun x => max 0 (min 4 ⌊x⌋))
    reinvestPremium := params.reinvestPremium
    roundStrikeToInt := params.roundStrikeToInt
    skipEarningsWeek := params.skipEarningsWeek
    dynamicContracts := params.dynamicContracts
    enableRoll := params.enableRoll
    cyclePairs := pairUp (generateCycleBoundaries dates params.freq)
    earnIdx := params.earningsDates.filterMap (lastIdxOf dates)
    baseContractQty := ⌊params.shares / 100⌋
    initialCapital := params.initialCapital
    sharesInit := params.shares }

/-- hasEarningsInCycle (lines 140-146): with earnings-avoidance on, does any
day index in [startIdx, endIdx] carry an earnings date? -/
def hasEarningsInCycle (C : Ctx) (startIdx endIdx : ℕ) : Bool :=
  C.skipEarningsWeek &&
    (List.range' startIdx (endIdx + 1 - startIdx)).any (fun j => C.earnIdx.contains j)

/-- The rolled contract's new expiry index (lines 232-233): extend the old
expiry by 5 trading days, capped at the last index; if that does not lie
strictly after today, use tomorrow (again capped). -/
def rollNewExpIdx (n i expIdx : ℕ) : ℕ :=
  let a := min (n - 1) (expIdx + 5)
  if a ≤ i then min (n - 1) (i + 1) else a

/-- Term used when opening a new position in a cycle (line 269):
(endIdx - startIdx + 1) trading days, annualized, floored at one day. -/
noncomputable def openTermFn (startIdx expIdx : ℕ) : ℝ :=
  max (((expIdx : ℝ) - (startIdx : ℝ) + 1) / 252) (1 / 252)

/-- Term used when reopening after a roll (line 234): (newExpIdx - i) days,
annualized, floored at one day. -/
noncomputable def rollTermFn (i newExpIdx : ℕ) : ℝ :=
  max (((newExpIdx : ℝ) - (i : ℝ)) / 252) (1 / 252)

open Classical in
/-- Premium receipt plus optional reinvestment (lines 248-256 and 277-285,
the two blocks are textually identical in the source): credit the premium
cash, then, if reinvesting, buy floor(premiumCash / S) whole shares when that
count is positive. -/
noncomputable def creditAndReinvest (reinvest : Bool) (S premiumCash cash shares : ℝ) :
    ℝ × ℝ :=
  let cash1 := cash + premiumCash
  if reinvest then
    let lotShares : ℤ := ⌊premiumCash / S⌋
    if 0 < lotShares then (cash1 - (lotShares : ℝ) * S, shares + (lotShares : ℝ))
    else (cash1, shares)
  else (cash1, shares)

open Classical in
/-- Assignment delivery and rebuy at an expiry settlement (lines 304-315):
deliver min(qty*100, shares) at the strike, then rebuy the same count at
market. -/
noncomputable def settleDeliverRebuy (strike Sexp : ℝ) (qty : ℤ) (cash shares : ℝ) :
    ℝ × ℝ :=
  let assignedLots : ℤ := if strike < Sexp then qty else 0
  if 0 < assignedLots then
    let deliver : ℝ := (assignedLots : ℝ) * 100
    let deliverable := min deliver shares
    let shares1 := shares - deliverable
    let cash1 := cash + deliverable * strike
    if 0 < deliverable then (cash1 - deliverable * Sexp, shares1 + deliverable)
    else (cash1, shares1)
  else (cash, shares)

open Classical in
/-- Step 1 of the per-day loop, the roll check (lines 196-262).  Returns the
state after the phase, the roll settlement record if a roll fired, and the
record appended to the delta-roll-only log. -/
noncomputable def rollPhase (C : Ctx) (i : ℕ) (st : EngState) :
    EngState × Option SettlementEvent × Option SettlementEvent :=
  match st.openCall with
  | none => (st, none, none)
  | some oc =>
    if ¬ C.enableRoll then (st, none, none)
    else if oc.expIdx < i then (st, none, none)
    else
      let daysToExpiry := oc.expIdx - i
      let S := C.prices.getD i 0
      let timeToExpiry := max ((daysToExpiry : ℝ) / 252) (1 / 252)
      let currentDelta := bsCallDelta S oc.strike C.r C.q C.iv timeToExpiry
      let meetsDeltaTrigger : Prop := 2 < daysToExpiry ∧ C.rollDeltaTrigger ≤ currentDelta
      let meetsScheduledRoll : Prop :=
        match C.scheduledRollOffset with
        | none => False
        | some off => max (oc.sellIdx : ℤ) ((oc.expIdx : ℤ) - off) ≤ (i : ℤ)
      if meetsDeltaTrigger ∨ meetsScheduledRoll then
        let closeValue := bsCallPrice S oc.strike C.r C.q C.iv timeToExpiry
        let cash1 := st.cash - closeValue * ((oc.qty : ℝ) * 100)
        let rollPnl := (oc.premium - closeValue) * ((oc.qty : ℝ) * 100)
        let totalAfterClose := cash1 + st.shares * S
        let rollReason : RollReason := if meetsDeltaTrigger then .delta else .scheduled
        let rollRecord : SettlementEvent :=
          { index := i
            date := C.dates.getD i default
            totalValue := totalAfterClose
            pnl := rollPnl
            strike := oc.strike
            underlying := S
            premium := oc.premium
            qty := oc.qty
            typ := .roll
            delta := some currentDelta
            rollReason := some rollReason }
        let rollEvent : Option SettlementEvent :=
          if meetsDeltaTrigger then some { rollRecord with rollReason := some .delta }
          else none
        let newExpIdx := rollNewExpIdx C.n i oc.expIdx
        let newTerm := rollTermFn i newExpIdx
        let solved := findStrikeForTargetDelta S C.strikeTargetDelta C.r C.q C.iv newTerm
        let strike1 := if C.roundStrikeToInt then ((round solved : ℤ) : ℝ) else solved
        let strike2 :=
          if meetsDeltaTrigger then
            if strike1 ≤ oc.strike then
              let minIncrement : ℝ :=
                if C.roundStrikeToInt then 1 else max 0.5 (strike1 * 0.01)
              let s := oc.strike + minIncrement
              if C.roundStrikeToInt then ((round s : ℤ) : ℝ) else s
            else strike1
          else strike1
        let newQty := if C.dynamicContracts then ⌊st.shares / 100⌋ else C.baseContractQty
        if 0 < newQty then
          let newPremium := bsCallPrice S strike2 C.r C.q C.iv newTerm
          let cs := creditAndReinvest C.reinvestPremium S (newPremium * ((newQty : ℝ) * 100))
            cash1 st.shares
          ({ cash := cs.1, shares := cs.2,
             openCall := some ⟨strike2, newPremium, newQty, i, newExpIdx⟩ },
           some rollRecord, rollEvent)
        else
          ({ cash := cash1, shares := st.shares, openCall := none },
           some rollRecord, rollEvent)
      else (st, none, none)

open Classical in
/-- Step 2 of the per-day loop, the new-position check (lines 264-290): when
no position is open and today starts a cycle without earnings, solve a strike
at the target delta and open, credit premium, optionally reinvest. -/
noncomputable def openPhase (C : Ctx) (i : ℕ) (st : EngState) : EngState :=
  match st.openCall with
  | some _ => st
  | none =>
    match C.cyclePairs.find? (fun p => p.1 == i) with
    | none => st
    | some se =>
      if hasEarningsInCycle C se.1 se.2 then st
      else
        let T := openTermFn se.1 se.2
        let qty := if C.dynamicContracts then ⌊st.shares / 100⌋ else C.baseContractQty
        if 0 < qty then
          let S := C.prices.getD i 0
          let solved := findStrikeForTargetDelta S C.strikeTargetDelta C.r C.q C.iv T
          let strike := if C.roundStrikeToInt then max 1 ((round solved : ℤ) : ℝ) else solved
          let premium := bsCallPrice S strike C.r C.q C.iv T
          let cs := creditAndReinvest C.reinvestPremium S (premium * ((qty : ℝ) * 100))
            st.cash st.shares
          { cash := cs.1, shares := cs.2,
            openCall := some ⟨strike, premium, qty, i, se.2⟩ }
        else st

open Classical in
/-- Step 3 of the per-day loop, the settlement check (lines 301-327): settle
when the position expires today, or today is the final day and the position
is still open past it. -/
noncomputable def settlePhase (C : Ctx) (i : ℕ) (st : EngState) :
    EngState × Option SettlementNote :=
  match st.openCall with
  | none => (st, none)
  | some oc =>
    let isLastDay := i = C.n - 1
    if oc.expIdx = i ∨ (isLastDay ∧ i < oc.expIdx) then
      let Sexp := C.prices.getD i 0
      let cs := settleDeliverRebuy oc.strike Sexp oc.qty st.cash st.shares
      let intrinsic := max 0 (Sexp - oc.strike)
      let pnl := (oc.premium - intrinsic) * ((oc.qty : ℝ) * 100)
      ({ cash := cs.1, shares := cs.2, openCall := none },
       some { pnl := pnl, strike := oc.strike, underlying := Sexp,
              premium := oc.premium, qty := oc.qty, typ := .expiry,
              delta := some (if 0 < intrinsic then 1 else 0), rollReason := none })
    else (st, none)

/-- Everything one day of the loop emits. -/
structure DayOut where
  ccValue : ℝ
  callStrike : Option ℝ
  callDelta : Option ℝ
  events : List SettlementEvent
  rollEvents : List SettlementEvent

open Classical in
/-- One full iteration of the day loop (lines 193-354): roll check, then
new-position check, then settlement, then mark-to-market. -/
noncomputable def dayStep (C : Ctx) (st : EngState) (i : ℕ) : EngState × DayOut :=
  let S := C.prices.getD i 0
  let r1 := rollPhase C i st
  let st1 := r1.1
  let st2 := openPhase C i st1
  let r3 := settlePhase C i st2
  let st3 := r3.1
  let total := st3.cash + st3.shares * S
  let strikeDelta : Option ℝ × Option ℝ :=
    match st3.openCall with
    | some oc =>
      let remainingDays := oc.expIdx - i
      let remainingTerm := max ((remainingDays : ℝ) / 252) (1 / 252)
      (some oc.strike, some (bsCallDelta S oc.strike C.r C.q C.iv remainingTerm))
    | none => (none, none)
  let expiryEvent : Option SettlementEvent :=
    r3.2.map (fun nt =>
      { index := i, date := C.dates.getD i default, totalValue := total,
        pnl := nt.pnl, strike := nt.strike, underlying := nt.underlying,
        premium := nt.premium, qty := nt.qty, typ := .expiry,
        delta := nt.delta, rollReason := none })
  (st3,
   { ccValue := total
     callStrike := strikeDelta.1
     callDelta := strikeDelta.2
     events := r1.2.1.toList ++ expiryEvent.toList
     rollEvents := r1.2.2.toList })

/-- Run the day loop over the given day indices, collecting the per-day
outputs and the final state. -/
noncomputable def runOn (C : Ctx) (st : EngState) : List ℕ → List DayOut × EngState
  | [] => ([], st)
  | i :: rest =>
    let s := dayStep C st i
    let t := runOn C s.1 rest
    (s.2 :: t.1, t.2)

/-- The settlement note attached to the curve point of day i: the source
loops over all settlements writing out[s.index].settlement, so the last
event emitted on day i wins. -/
def dayNote (o : DayOut) : Option SettlementNote :=
  o.events.getLast?.map (fun e =>
    { pnl := e.pnl, strike := e.strike, underlying := e.underlying,
      premium := e.premium, qty := e.qty, typ := e.typ,
      delta := e.delta, rollReason := e.rollReason })

open Classical in
/-- The whole run as a function of the pre-computed context (the loop of
lines 193-354 and the output assembly of lines 356-406).  runBacktest below
is this applied to mkCtx; every use of params after line 191 of the source
reads a quantity that mkCtx carries. -/
noncomputable def runFromCtx (C : Ctx) : RunBacktestResult :=
  let st0 : EngState := { cash := C.initialCapital, shares := C.sharesInit,
                          openCall := none }
  let run := runOn C st0 (List.range C.n)
  let outs := run.1
  let bhValue := (List.range C.n).map
    (fun i => C.initialCapital + C.sharesInit * C.prices.getD i 0)
  let ccValue := outs.map (fun o => o.ccValue)
  let settlements := (outs.map (fun o => o.events)).flatten
  let rollEvents := (outs.map (fun o => o.rollEvents)).flatten
  let curve := (C.dates.enum).map (fun p =>
    { date := p.2
      buyAndHold := bhValue.getD p.1 0
      coveredCall := ccValue.getD p.1 0
      underlyingPrice := C.prices.getD p.1 0
      callStrike := (outs.get? p.1).bind (fun o => o.callStrike)
      callDelta := (outs.get? p.1).bind (fun o => o.callDelta)
      settlement := (outs.get? p.1).bind dayNote })
  let settlementTrades := settlements.filter (fun s => 0 < s.qty)
  let winningTrades := (settlementTrades.filter (fun s => 0 < s.pnl)).length
  { curve := curve
    bhReturn := (bhValue.getLast?.getD 0) / (bhValue.headD 0) - 1
    ccReturn := (ccValue.getLast?.getD 0) / (ccValue.headD 0) - 1
    hv := C.hv
    ivUsed := C.iv
    bhShares := C.sharesInit
    ccShares := run.2.shares
    settlements := settlements
    rollEvents := rollEvents
    ccWinRate := if 0 < settlementTrades.length
      then (winningTrades : ℝ) / (settlementTrades.length : ℝ) else 0
    ccSettlementCount := settlementTrades.length
    effectiveTargetDelta := C.strikeTargetDelta
    rollDeltaTrigger := C.rollDeltaTrigger }

/-- runBacktest of lib/backtest.ts. -/
noncomputable def runBacktest (ohlc : List OhlcRow) (params : BacktestParams) :
    RunBacktestResult :=
  runFromCtx (mkCtx ohlc params)

/-! ### Shared concrete values for witnesses and counterexamples -/

/-- A baseline parameter set (weekly cycles, every toggle off) that concrete
runs below modify per claim. -/
def paramsBase : BacktestParams :=
  { initialCapital := 0
    shares := 100
    r := 0
    q := 0
    targetDelta := some 0.3
    freq := .weekly
    ivOverride := none
    reinvestPremium := false
    roundStrikeToInt := false
    skipEarningsWeek := false
    dynamicContracts := false
    enableRoll := false
    earningsDates := []
    rollDeltaThreshold := none
    rollDaysBeforeExpiry := none }

/-! ### Claim C7 -/

/-- Claim C7: for any supplied parameters, the result's effectiveTargetDelta
is the supplied targetDelta clamped into [0.05, 0.95] (0.30 when absent or
non-finite, i.e. none in the model), and the result's rollDeltaTrigger is
the supplied rollDeltaThreshold clamped the same way (default 0.70). -/
theorem C7_effective_params_clamped (ohlc : List OhlcRow) (params : BacktestParams) :
    (runBacktest ohlc params).effectiveTargetDelta
        = min 0.95 (max 0.05 (params.targetDelta.getD 0.3)) ∧
    (runBacktest ohlc params).rollDeltaTrigger
        = min 0.95 (max 0.05 (params.rollDeltaThreshold.getD 0.7)) :=
  ⟨rfl, rfl⟩

/-! ### Claim C5 -/

/-- Claim C5: for every input series (any length, zero and one included) and
any parameters, runBacktest totally computes a curve with exactly one point
per input bar, in input order.  Totality of the Lean function models the
absence of thrown errors. -/
theorem C5_curve_matches_input (ohlc : List OhlcRow) (params : BacktestParams) :
    (runBacktest ohlc params).curve.length = ohlc.length ∧
    (runBacktest ohlc params).curve.map (fun p => p.date)
      = ohlc.map (fun r => r.date) := by
  have key : ∀ (l : List Ymd) (f : ℕ × Ymd → CurvePoint),
      (∀ p, (f p).date = p.2) → ((l.enum.map f).map (fun p => p.date)) = l := by
    intro l f hf
    rw [List.map_map, show ((fun p => p.date) ∘ f) = Prod.snd from funext hf,
      List.enum_map_snd]
  constructor
  · simp [runBacktest, runFromCtx, mkCtx]
  · simp only [runBacktest, runFromCtx]
    apply key
    intro p
    rfl

/-! ### Claim C6 -/

/-- Claim C6: at an expiry settlement with assignment (price above strike,
positive contract count), the delivered share count min(qty*100, shares)
never exceeds the held shares, and after the deliver-then-rebuy the ledger's
share count is unchanged. -/
theorem C6_settle_preserves_shares (strike Sexp : ℝ) (qty : ℤ) (cash shares : ℝ)
    (hassign : strike < Sexp) (hq : 0 < qty) (hsh : 0 ≤ shares) :
    min ((qty : ℝ) * 100) shares ≤ shares ∧
    (settleDeliverRebuy strike Sexp qty cash shares).2 = shares := by
  have hq100 : (0 : ℝ) < (qty : ℝ) * 100 := by
    have : (0 : ℝ) < (qty : ℝ) := by exact_mod_cast hq
    nlinarith
  refine ⟨min_le_right _ _, ?_⟩
  unfold settleDeliverRebuy
  simp only [if_pos hassign, if_pos hq]
  by_cases hd : 0 < min ((qty : ℝ) * 100) shares
  · simp only [if_pos hd]
    ring
  · have hmin0 : min ((qty : ℝ) * 100) shares = 0 :=
      le_antisymm (not_lt.1 hd) (le_min (le_of_lt hq100) hsh)
    simp only [if_neg hd, hmin0]
    simp

/-- Witness for C6 at a concrete assignment: strike 100, settlement price
101, one contract, 100 shares held. -/
theorem C6_settle_preserves_shares_witness :
    (settleDeliverRebuy 100 101 1 0 100).2 = 100 :=
  (C6_settle_preserves_shares 100 101 1 0 100 (by norm_num) (by norm_num)
    (by norm_num)).2

/-! ### Claim C10 -/

/-- Claim C10: when premium cash is received with reinvestment enabled and a
positive price S, the purchase is floor(premiumCash / S) whole shares (when
that is positive), its cost never exceeds the premium received, and the cash
after the credit-plus-reinvest step is never below the cash held before the
premium was credited.  Both premium-receipt sites of the source (new open,
lines 277-285, and roll reopen, lines 248-256) are the creditAndReinvest
step. -/
theorem C10_reinvest_cost_bounded (S premiumCash cash shares : ℝ)
    (hS : 0 < S) (hpc : 0 ≤ premiumCash) :
    cash ≤ (creditAndReinvest true S premiumCash cash shares).1 ∧
    (0 < ⌊premiumCash / S⌋ →
      (creditAndReinvest true S premiumCash cash shares).2
          = shares + ((⌊premiumCash / S⌋ : ℤ) : ℝ) ∧
      ((⌊premiumCash / S⌋ : ℤ) : ℝ) * S ≤ premiumCash) := by
  have hcost : ((⌊premiumCash / S⌋ : ℤ) : ℝ) * S ≤ premiumCash := by
    have h := Int.floor_le (premiumCash / S)
    calc ((⌊premiumCash / S⌋ : ℤ) : ℝ) * S ≤ (premiumCash / S) * S := by nlinarith
      _ = premiumCash := by field_simp
  by_cases hl : 0 < ⌊premiumCash / S⌋
  · have h1 : creditAndReinvest true S premiumCash cash shares
        = (cash + premiumCash - ((⌊premiumCash / S⌋ : ℤ) : ℝ) * S,
           shares + ((⌊premiumCash / S⌋ : ℤ) : ℝ)) := by
      simp [creditAndReinvest, hl]
    rw [h1]
    exact ⟨by simp only []; nlinarith, fun _ => ⟨rfl, hcost⟩⟩
  · have h1 : creditAndReinvest true S premiumCash cash shares
        = (cash + premiumCash, shares) := by
      simp [creditAndReinvest, hl]
    rw [h1]
    exact ⟨by simp only []; nlinarith, fun h => absurd h hl⟩

/-- Witness for C10 at S = 10, premium cash 25: two shares are bought for
20 ≤ 25 and cash does not drop below its pre-credit value. -/
theorem C10_reinvest_cost_bounded_witness :
    (0 : ℝ) ≤ (creditAndReinvest true 10 25 0 0).1 ∧
    (creditAndReinvest true 10 25 0 0).2 = 0 + ((⌊(25 : ℝ) / 10⌋ : ℤ) : ℝ) :=
  ⟨(C10_reinvest_cost_bounded 10 25 0 0 (by norm_num) (by norm_num)).1,
   ((C10_reinvest_cost_bounded 10 25 0 0 (by norm_num) (by norm_num)).2
     (by norm_num)).1⟩

/-! ### Claim C9 -/

/-- The price series the engine derives from the input bars. -/
noncomputable def enginePrices (ohlc : List OhlcRow) : List ℝ :=
  ohlc.map (fun r => r.adjClose.getD r.close)

/-- Claim C9: an absent ivOverride (none, covering null / non-numeric) and a
zero or negative ivOverride are all treated as no override: the entire
result is that of a run with no override, and ivUsed is the estimated
historical volatility; only a strictly positive override is used verbatim. -/
theorem C9_iv_override_gating (ohlc : List OhlcRow) (params : BacktestParams) :
    (params.ivOverride = none →
      (runBacktest ohlc params).ivUsed = estimateHV (enginePrices ohlc)) ∧
    (∀ v, params.ivOverride = some v → v ≤ 0 →
      runBacktest ohlc params = runBacktest ohlc { params with ivOverride := none } ∧
      (runBacktest ohlc params).ivUsed = estimateHV (enginePrices ohlc)) ∧
    (∀ v, params.ivOverride = some v → 0 < v →
      (runBacktest ohlc params).ivUsed = v) := by
  have hiv : (runBacktest ohlc params).ivUsed = (mkCtx ohlc params).iv := rfl
  refine ⟨?_, ?_, ?_⟩
  · intro h
    rw [hiv]
    simp [mkCtx, h, enginePrices]
  · intro v hv hv0
    have hctx : mkCtx ohlc params = mkCtx ohlc { params with ivOverride := none } := by
      simp [mkCtx, hv, if_neg (not_lt.mpr hv0)]
    constructor
    · show runFromCtx (mkCtx ohlc params) = runFromCtx (mkCtx ohlc _)
      rw [hctx]
    · rw [hiv]
      simp [mkCtx, hv, if_neg (not_lt.mpr hv0), enginePrices]
  · intro v hv hvpos
    rw [hiv]
    simp [mkCtx, hv, if_pos hvpos]

/-- Witness for C9: a negative override (-1) on an empty series yields the
historical-volatility fallback as ivUsed. -/
theorem C9_iv_override_gating_witness :
    (runBacktest [] { paramsBase with ivOverride := some (-1) }).ivUsed
      = estimateHV (enginePrices []) :=
  ((C9_iv_override_gating [] { paramsBase with ivOverride := some (-1) }).2.1
    (-1) rfl (by norm_num)).2

/-! ### Degenerate-volatility pricing facts and the bisection bracket -/

/-- With sigma = 0 and zero rates the pricer is the plain intrinsic value. -/
theorem bsCallPrice_sigma0_r0 (S K T : ℝ) :
    bsCallPrice S K 0 0 0 T = max 0 (S - K) := by
  unfold bsCallPrice
  rw [if_pos (Or.inl le_rfl)]
  simp

/-- With sigma = 0 the delta is the 1/0 step function at the strike. -/
theorem bsCallDelta_sigma0 (S K r q T : ℝ) :
    bsCallDelta S K r q 0 T = if K < S then 1 else 0 := by
  unfold bsCallDelta
  rw [if_pos (Or.inl le_rfl)]

/-- Bracket invariant of the strike bisection when sigma = 0 and the target
delta lies in [0, 1): the bracket always straddles S (low < S ≤ high) and
its width is exactly 1.5 S / 2 ^ n. -/
theorem bisectStrike_sigma0_inv (S target r q T : ℝ) (hS : 0 < S)
    (h0 : 0 ≤ target) (h1 : target < 1) (n : ℕ) :
    (bisectStrike S target r q 0 T n).1 < S ∧
    S ≤ (bisectStrike S target r q 0 T n).2 ∧
    (bisectStrike S target r q 0 T n).2 - (bisectStrike S target r q 0 T n).1
      = 1.5 * S / 2 ^ n := by
  induction n with
  | zero =>
    refine ⟨by simp only [bisectStrike]; nlinarith,
      by simp only [bisectStrike]; nlinarith, ?_⟩
    simp only [bisectStrike, pow_zero]
    ring
  | succ n ih =>
    obtain ⟨hl, hh, hw⟩ := ih
    by_cases hmid : (bisectStrike S target r q 0 T n).1 / 2
        + (bisectStrike S target r q 0 T n).2 / 2 < S
    · have hd : bsCallDelta S (((bisectStrike S target r q 0 T n).1
          + (bisectStrike S target r q 0 T n).2) / 2) r q 0 T = 1 := by
        rw [bsCallDelta_sigma0, if_pos (by linarith)]
      have hres : bisectStrike S target r q 0 T (n + 1)
          = (((bisectStrike S target r q 0 T n).1
              + (bisectStrike S target r q 0 T n).2) / 2,
             (bisectStrike S target r q 0 T n).2) := by
        simp only [bisectStrike, hd, if_pos h1]
      have hpow : (0 : ℝ) < 2 ^ n := by positivity
      rw [eq_div_iff (ne_of_gt hpow)] at hw
      rw [hres]
      refine ⟨by simpa using by linarith, by simpa using hh, ?_⟩
      rw [eq_div_iff (by positivity : ((2 : ℝ) ^ (n + 1)) ≠ 0), pow_succ]
      show ((bisectStrike S target r q 0 T n).2
        - ((bisectStrike S target r q 0 T n).1
            + (bisectStrike S target r q 0 T n).2) / 2) * (2 ^ n * 2) = 1.5 * S
      linear_combination hw
    · have hd : bsCallDelta S (((bisectStrike S target r q 0 T n).1
          + (bisectStrike S target r q 0 T n).2) / 2) r q 0 T = 0 := by
        rw [bsCallDelta_sigma0, if_neg (by linarith)]
      have hres : bisectStrike S target r q 0 T (n + 1)
          = ((bisectStrike S target r q 0 T n).1,
             ((bisectStrike S target r q 0 T n).1
              + (bisectStrike S target r q 0 T n).2) / 2) := by
        simp only [bisectStrike, hd, if_neg (not_lt.mpr h0)]
      have hpow : (0 : ℝ) < 2 ^ n := by positivity
      rw [eq_div_iff (ne_of_gt hpow)] at hw
      rw [hres]
      refine ⟨by simpa using hl, by simpa using by linarith, ?_⟩
      rw [eq_div_iff (by positivity : ((2 : ℝ) ^ (n + 1)) ≠ 0), pow_succ]
      show (((bisectStrike S target r q 0 T n).1
            + (bisectStrike S target r q 0 T n).2) / 2
        - (bisectStrike S target r q 0 T n).1) * (2 ^ n * 2) = 1.5 * S
      linear_combination hw

/-- The solved strike at sigma = 0 lies within half the final bracket width
of the spot price. -/
theorem findStrike_sigma0_near (S target r q T : ℝ) (hS : 0 < S)
    (h0 : 0 ≤ target) (h1 : target < 1) :
    |findStrikeForTargetDelta S target r q 0 T - S| ≤ 1.5 * S / 2 ^ 61 := by
  obtain ⟨hl, hh, hw⟩ := bisectStrike_sigma0_inv S target r q T hS h0 h1 60
  unfold findStrikeForTargetDelta
  rw [abs_le]
  have hhalf : 1.5 * S / 2 ^ 61
      = ((bisectStrike S target r q 0 T 60).2
        - (bisectStrike S target r q 0 T 60).1) / 2 := by
    rw [hw]
    ring
  rw [hhalf]
  constructor
  · linarith
  · linarith

/-- With sigma = 0 and spot 100.4, the solved strike rounds to 100 for any
target delta in [0, 1) and any r, q, T: the bisection ends within 2^-61 of
the spot. -/
theorem findStrike_1004_round (target r q T : ℝ) (h0 : 0 ≤ target) (h1 : target < 1) :
    (round (findStrikeForTargetDelta 100.4 target r q 0 T) : ℤ) = 100 := by
  have hnear := findStrike_sigma0_near 100.4 target r q T (by norm_num) h0 h1
  rw [abs_le] at hnear
  have hb : (1.5 : ℝ) * 100.4 / 2 ^ 61 < 0.05 := by norm_num
  rw [round_eq]
  rw [Int.floor_eq_iff]
  constructor
  · push_cast
    linarith [hnear.1]
  · push_cast
    linarith [hnear.2]

/-- On a series whose entries all equal a positive constant, every kept log
return is log 1 = 0. -/
theorem retsConstAux (c : ℝ) (hc : 0 < c) :
    ∀ (l : List ℝ), (∀ x ∈ l, x = c) →
      ((l.zip l.tail).filterMap
          (fun p => if 0 < p.2 / p.1 then some (Real.log (p.2 / p.1)) else none))
        = List.replicate (l.length - 1) 0 := by
  intro l
  induction l with
  | nil => intro _; simp
  | cons a t ih =>
    intro h
    cases t with
    | nil => simp
    | cons b rest =>
      have ha : a = c := h a (by simp)
      have hb : b = c := h b (by simp)
      have ih2 := ih (fun x hx => h x (List.mem_cons_of_mem _ hx))
      simp only [List.tail_cons] at ih2 ⊢
      rw [List.zip_cons_cons, List.filterMap_cons]
      have hcond : 0 < b / a := by
        rw [ha, hb]
        exact div_pos hc hc
      have hlog : Real.log (b / a) = 0 := by
        rw [ha, hb, div_self (ne_of_gt hc), Real.log_one]
      rw [if_pos hcond, hlog]
      dsimp only
      rw [ih2]
      simp [List.replicate_succ]

/-- estimateHV of a constant positive series of at least 3 bars is 0. -/
theorem estimateHV_const (c : ℝ) (hc : 0 < c) (l : List ℝ) (h : ∀ x ∈ l, x = c)
    (hlen : 3 ≤ l.length) : estimateHV l = 0 := by
  have hr := retsConstAux c hc l h
  unfold estimateHV
  rw [hr]
  have hlen2 : ¬ (List.replicate (l.length - 1) (0 : ℝ)).length < 2 := by
    simp only [List.length_replicate]
    omega
  rw [if_neg hlen2]
  simp [List.sum_replicate, List.map_replicate]

/-! ### Phase evaluation lemmas -/

/-- The roll check does nothing when no position is open. -/
theorem rollPhase_none (C : Ctx) (i : ℕ) (st : EngState) (h : st.openCall = none) :
    rollPhase C i st = (st, none, none) := by
  simp [rollPhase, h]

/-- The new-position check does nothing when a position is open. -/
theorem openPhase_some (C : Ctx) (i : ℕ) (st : EngState) (oc : OpenCall)
    (h : st.openCall = some oc) : openPhase C i st = st := by
  simp [openPhase, h]

/-- The settlement check does nothing when no position is open. -/
theorem settlePhase_none (C : Ctx) (i : ℕ) (st : EngState) (h : st.openCall = none) :
    settlePhase C i st = (st, none) := by
  simp [settlePhase, h]

/-- The settlement check does nothing when the open position neither expires
today nor is cut off by the final day. -/
theorem settlePhase_noexp (C : Ctx) (i : ℕ) (st : EngState) (oc : OpenCall)
    (h : st.openCall = some oc) (h1 : oc.expIdx ≠ i)
    (h2 : ¬ (i = C.n - 1 ∧ i < oc.expIdx)) :
    settlePhase C i st = (st, none) := by
  simp only [settlePhase, h]
  rw [if_neg]
  push_neg
  exact ⟨h1, fun ha => le_of_not_lt (fun hb => h2 ⟨ha, hb⟩)⟩

/-- The new-position check is skipped (position stays closed) when the
cycle starting today contains an earnings date. -/
theorem openPhase_earnings (C : Ctx) (i : ℕ) (st : EngState) (se : ℕ × ℕ)
    (hoc : st.openCall = none)
    (hfind : C.cyclePairs.find? (fun p => p.1 == i) = some se)
    (hearn : hasEarningsInCycle C se.1 se.2 = true) :
    openPhase C i st = st := by
  simp [openPhase, hoc, hfind, hearn]

/-- Evaluation of a successful open in the concrete sigma = 0 setting:
spot 100.4, zero rates, integer rounding, one fixed contract, no
reinvestment.  The solved strike rounds to 100 and the premium is the
intrinsic 0.4 per share. -/
theorem openPhase_eval1004 (C : Ctx) (i : ℕ) (st : EngState) (se : ℕ × ℕ)
    (hoc : st.openCall = none)
    (hfind : C.cyclePairs.find? (fun p => p.1 == i) = some se)
    (hearn : hasEarningsInCycle C se.1 se.2 = false)
    (hdyn : C.dynamicContracts = false) (hbase : C.baseContractQty = 1)
    (hround : C.roundStrikeToInt = true) (hreinv : C.reinvestPremium = false)
    (hiv : C.iv = 0) (hr : C.r = 0) (hq : C.q = 0)
    (hS : C.prices.getD i 0 = 100.4) (hstd : C.strikeTargetDelta = 0.3) :
    openPhase C i st = { cash := st.cash + 40, shares := st.shares,
                         openCall := some ⟨100, 0.4, 1, i, se.2⟩ } := by
  have hsolve : (round (findStrikeForTargetDelta (C.prices.getD i 0)
      C.strikeTargetDelta C.r C.q C.iv (openTermFn se.1 se.2)) : ℤ) = 100 := by
    rw [hS, hstd, hr, hq, hiv]
    exact findStrike_1004_round 0.3 0 0 _ (by norm_num) (by norm_num)
  simp only [openPhase, hoc, hfind, hearn, Bool.false_eq_true, if_false, hdyn,
    hround, if_true, hbase, hreinv]
  rw [if_pos (by norm_num : (0 : ℤ) < 1)]
  rw [hsolve]
  have hstrike : (max 1 (((100 : ℤ) : ℝ))) = (100 : ℝ) := by norm_num
  rw [hstrike]
  have hprem : bsCallPrice (C.prices.getD i 0) 100 C.r C.q C.iv (openTermFn se.1 se.2)
      = 0.4 := by
    rw [hS, hr, hq, hiv]
    rw [bsCallPrice_sigma0_r0]
    norm_num
  rw [hprem]
  simp only [creditAndReinvest, Bool.false_eq_true, if_false]
  simp only [EngState.mk.injEq]
  push_cast
  norm_num

/-- Evaluation of a scheduled roll in the concrete sigma = 0 setting (spot
100.4, zero rates, rounding, one contract, no reinvestment, old strike 100):
the close costs the intrinsic 0.4 per share, the reopened strike rounds to
100 again (no forced increment, the delta trigger did not fire), and the new
premium is again 0.4; cash is unchanged net. -/
theorem rollPhase_sched_eval1004 (C : Ctx) (i : ℕ) (st : EngState) (oc : OpenCall)
    (off : ℤ)
    (hoc : st.openCall = some oc) (hen : C.enableRoll = true)
    (hile : i ≤ oc.expIdx) (hd2 : oc.expIdx - i ≤ 2)
    (hoff : C.scheduledRollOffset = some off)
    (hsched : max (oc.sellIdx : ℤ) ((oc.expIdx : ℤ) - off) ≤ (i : ℤ))
    (hstrike : oc.strike = 100) (hq1 : oc.qty = 1)
    (hdyn : C.dynamicContracts = false) (hbase : C.baseContractQty = 1)
    (hround : C.roundStrikeToInt = true) (hreinv : C.reinvestPremium = false)
    (hiv : C.iv = 0) (hr : C.r = 0) (hq : C.q = 0)
    (hS : C.prices.getD i 0 = 100.4) (hstd : C.strikeTargetDelta = 0.3) :
    rollPhase C i st =
      ({ cash := st.cash, shares := st.shares,
         openCall := some ⟨100, 0.4, 1, i, rollNewExpIdx C.n i oc.expIdx⟩ },
       some { index := i, date := C.dates.getD i default,
              totalValue := st.cash - 40 + st.shares * 100.4,
              pnl := (oc.premium - 0.4) * 100,
              strike := 100, underlying := 100.4, premium := oc.premium,
              qty := 1, typ := .roll, delta := some 1,
              rollReason := some .scheduled },
       none) := by
  have hdte : ¬ (2 < oc.expIdx - i) := not_lt.mpr hd2
  have hmd : ¬ (2 < oc.expIdx - i ∧ C.rollDeltaTrigger
      ≤ bsCallDelta (C.prices.getD i 0) oc.strike C.r C.q C.iv
          (max (((oc.expIdx - i : ℕ) : ℝ) / 252) (1 / 252))) :=
    fun h => hdte h.1
  have hsolve : (round (findStrikeForTargetDelta (C.prices.getD i 0)
      C.strikeTargetDelta C.r C.q C.iv
      (rollTermFn i (rollNewExpIdx C.n i oc.expIdx))) : ℤ) = 100 := by
    rw [hS, hstd, hr, hq, hiv]
    exact findStrike_1004_round 0.3 0 0 _ (by norm_num) (by norm_num)
  have hprice : ∀ K T : ℝ, bsCallPrice (C.prices.getD i 0) K C.r C.q C.iv T
      = max 0 (100.4 - K) := by
    intro K T
    rw [hS, hr, hq, hiv, bsCallPrice_sigma0_r0]
  have hdelta : bsCallDelta (C.prices.getD i 0) oc.strike C.r C.q C.iv
      (max (((oc.expIdx - i : ℕ) : ℝ) / 252) (1 / 252)) = 1 := by
    rw [hS, hstrike, hr, hq, hiv, bsCallDelta_sigma0, if_pos (by norm_num)]
  simp only [rollPhase, hoc, hen, not_true, if_false, hoff]
  rw [if_neg (not_lt.mpr hile)]
  rw [if_pos (Or.inr hsched)]
  rw [if_neg hmd]
  simp only [hdyn, Bool.false_eq_true, if_false, hbase, hround, if_true]
  rw [if_pos (by norm_num : (0 : ℤ) < 1)]
  rw [hsolve]
  rw [hprice, hprice, hdelta, hstrike, hq1]
  simp only [creditAndReinvest, Bool.false_eq_true, if_false, hreinv]
  simp only [Prod.mk.injEq, EngState.mk.injEq, Option.some.injEq,
    OpenCall.mk.injEq, SettlementEvent.mk.injEq]
  push_cast
  norm_num
  have hS2 : C.prices[i]?.getD 0 = (502 / 5 : ℝ) := by
    rw [← List.getD_eq_getElem?_getD, hS]
    norm_num
  exact ⟨⟨Or.inl hS2, hS2, fun h _ => absurd h hdte⟩, fun h _ => absurd h hdte⟩

/-! ### Concrete inputs for counterexamples and witnesses -/

/-- A bar at constant price 100.4 (so hv = 0 and sigma = 0 in the run, and
the solved strike rounds to 100 below the spot: nonzero intrinsic premium). -/
def bar1004 (d : Ymd) : OhlcRow := { date := d, close := 100.4, adjClose := none }

/-- Eight trading days: a 3-day ISO week (Wed 2025-01-01 .. Fri) then a
5-day week (Mon 2025-01-06 .. Fri). -/
def datesA : List Ymd :=
  [⟨2025, 1, 1⟩, ⟨2025, 1, 2⟩, ⟨2025, 1, 3⟩, ⟨2025, 1, 6⟩,
   ⟨2025, 1, 7⟩, ⟨2025, 1, 8⟩, ⟨2025, 1, 9⟩, ⟨2025, 1, 10⟩]

def ohlcA : List OhlcRow := datesA.map bar1004

/-- Nine trading days: a 3-day week, a 4-day week (Mon .. Thu, Friday
missing), then two days of the following week.  The cycles are
(0,2), (3,6), (7,8): the second cycle ends at index 6, not 7. -/
def datesB : List Ymd :=
  [⟨2025, 1, 1⟩, ⟨2025, 1, 2⟩, ⟨2025, 1, 3⟩, ⟨2025, 1, 6⟩,
   ⟨2025, 1, 7⟩, ⟨2025, 1, 8⟩, ⟨2025, 1, 9⟩, ⟨2025, 1, 13⟩, ⟨2025, 1, 14⟩]

def ohlcB : List OhlcRow := datesB.map bar1004

/-- Rolling configuration: integer strikes, rolling enabled, scheduled roll
2 days before expiry. -/
def paramsRoll : BacktestParams :=
  { paramsBase with
      roundStrikeToInt := true
      enableRoll := true
      rollDaysBeforeExpiry := some 2 }

/-- Earnings-avoidance configuration with an earnings date inside cycle 0. -/
def paramsSkip : BacktestParams :=
  { paramsBase with
      roundStrikeToInt := true
      skipEarningsWeek := true
      earningsDates := [⟨2025, 1, 2⟩] }

/-- The same configuration with earnings-avoidance off. -/
def paramsNoSkip : BacktestParams :=
  { paramsBase with roundStrikeToInt := true }

noncomputable def ctxA : Ctx := mkCtx ohlcA paramsRoll
noncomputable def ctxB : Ctx := mkCtx ohlcB paramsRoll
noncomputable def ctxSkip : Ctx := mkCtx ohlcA paramsSkip
noncomputable def ctxNoSkip : Ctx := mkCtx ohlcA paramsNoSkip

/-! Context facts for the concrete runs. -/

theorem datesA_map : ohlcA.map (fun r => r.date) = datesA := rfl

theorem datesB_map : ohlcB.map (fun r => r.date) = datesB := rfl

theorem pricesA : ohlcA.map (fun r => r.adjClose.getD r.close)
    = List.replicate 8 (100.4 : ℝ) := by
  simp [ohlcA, datesA, bar1004]

theorem pricesB : ohlcB.map (fun r => r.adjClose.getD r.close)
    = List.replicate 9 (100.4 : ℝ) := by
  simp [ohlcB, datesB, bar1004]

theorem ctxA_iv : ctxA.iv = 0 := by
  show estimateHV (ohlcA.map (fun r => r.adjClose.getD r.close)) = 0
  rw [pricesA]
  apply estimateHV_const 100.4 (by norm_num)
  · intro x hx
    simpa using List.eq_of_mem_replicate hx
  · simp

theorem ctxB_iv : ctxB.iv = 0 := by
  show estimateHV (ohlcB.map (fun r => r.adjClose.getD r.close)) = 0
  rw [pricesB]
  apply estimateHV_const 100.4 (by norm_num)
  · intro x hx
    simpa using List.eq_of_mem_replicate hx
  · simp

theorem ctxSkip_iv : ctxSkip.iv = 0 := ctxA_iv

theorem ctxNoSkip_iv : ctxNoSkip.iv = 0 := ctxA_iv

theorem ctxA_std : ctxA.strikeTargetDelta = 0.3 := by
  show clampDelta 0.3 = 0.3
  rw [clampDelta]
  norm_num

theorem ctxA_base : ctxA.baseContractQty = 1 := by
  show ⌊(100 : ℝ) / 100⌋ = 1
  norm_num

theorem ctxA_pairs : ctxA.cyclePairs = [(0, 2), (3, 7)] := by
  show pairUp (generateCycleBoundaries (ohlcA.map (fun r => r.date)) .weekly)
    = [(0, 2), (3, 7)]
  rw [datesA_map]
  decide

theorem ctxB_pairs : ctxB.cyclePairs = [(0, 2), (3, 6), (7, 8)] := by
  show pairUp (generateCycleBoundaries (ohlcB.map (fun r => r.date)) .weekly)
    = [(0, 2), (3, 6), (7, 8)]
  rw [datesB_map]
  decide

theorem ctxA_getD (i : ℕ) (h : i < 8) : ctxA.prices.getD i 0 = 100.4 := by
  show (ohlcA.map (fun r => r.adjClose.getD r.close)).getD i 0 = 100.4
  rw [pricesA]
  rw [List.getD_eq_getElem?_getD, List.getElem?_replicate]
  simp [h]

theorem ctxB_getD (i : ℕ) (h : i < 9) : ctxB.prices.getD i 0 = 100.4 := by
  show (ohlcB.map (fun r => r.adjClose.getD r.close)).getD i 0 = 100.4
  rw [pricesB]
  rw [List.getD_eq_getElem?_getD, List.getElem?_replicate]
  simp [h]

theorem ctxA_earn02 : hasEarningsInCycle ctxA 0 2 = false := by
  unfold hasEarningsInCycle
  rw [show ctxA.skipEarningsWeek = false from rfl]
  simp

theorem ctxSkip_earnIdx : ctxSkip.earnIdx = [1] := by
  show List.filterMap (lastIdxOf (ohlcA.map (fun r => r.date))) [⟨2025, 1, 2⟩] = [1]
  rw [datesA_map]
  decide

theorem ctxSkip_earn02 : hasEarningsInCycle ctxSkip 0 2 = true := by
  unfold hasEarningsInCycle
  rw [ctxSkip_earnIdx, show ctxSkip.skipEarningsWeek = true from rfl]
  decide

theorem ctxNoSkip_earn02 : hasEarningsInCycle ctxNoSkip 0 2 = false := by
  unfold hasEarningsInCycle
  rw [show ctxNoSkip.skipEarningsWeek = false from rfl]
  simp

theorem ctxA_find0 : ctxA.cyclePairs.find? (fun p => p.1 == 0) = some (0, 2) := by
  rw [ctxA_pairs]
  rfl

theorem ctxA_off : ctxA.scheduledRollOffset = some 2 := by
  show Option.map (fun x => max 0 (min 4 ⌊x⌋)) (some (2 : ℝ)) = some 2
  norm_num

theorem ctxA_date1 : ctxA.dates.getD 1 default = (⟨2025, 1, 2⟩ : Ymd) := by
  show (ohlcA.map (fun r => r.date)).getD 1 default = _
  rw [datesA_map]
  rfl

/-- Step-function delta at spot 100.4 versus strike 100 is 1 whatever the
remaining term. -/
theorem delta1004 (T : ℝ) : bsCallDelta 100.4 100 0 0 0 T = 1 := by
  rw [bsCallDelta_sigma0, if_pos (by norm_num)]

/-- Day 0 of the 8-day rolling run: a position opens at strike 100 with
premium 0.4 and expiry index 2, crediting 40 of premium cash. -/
theorem dayStepA0 :
    dayStep ctxA { cash := 0, shares := 100, openCall := none } 0
      = ({ cash := 40, shares := 100, openCall := some ⟨100, 0.4, 1, 0, 2⟩ },
         { ccValue := 10080, callStrike := some 100, callDelta := some 1,
           events := [], rollEvents := [] }) := by
  have hS0 := ctxA_getD 0 (by norm_num)
  have h1 : rollPhase ctxA 0 { cash := 0, shares := 100, openCall := none }
      = ({ cash := 0, shares := 100, openCall := none }, none, none) :=
    rollPhase_none _ _ _ rfl
  have h2 : openPhase ctxA 0 { cash := 0, shares := 100, openCall := none }
      = { cash := (0 : ℝ) + 40, shares := 100, openCall := some ⟨100, 0.4, 1, 0, 2⟩ } :=
    openPhase_eval1004 ctxA 0 _ (0, 2) rfl ctxA_find0 ctxA_earn02 rfl ctxA_base rfl rfl
      ctxA_iv rfl rfl hS0 ctxA_std
  have h3 : settlePhase ctxA 0
      { cash := (0 : ℝ) + 40, shares := 100, openCall := some ⟨100, 0.4, 1, 0, 2⟩ }
      = ({ cash := (0 : ℝ) + 40, shares := 100,
           openCall := some ⟨100, 0.4, 1, 0, 2⟩ }, none) :=
    settlePhase_noexp _ _ _ ⟨100, 0.4, 1, 0, 2⟩ rfl (by norm_num)
      (by
        intro h
        rw [show ctxA.n = 8 from rfl] at h
        omega)
  simp only [dayStep, h1, h2, h3, hS0]
  norm_num [Option.toList, Prod.mk.injEq, EngState.mk.injEq, DayOut.mk.injEq]
  rw [show ctxA.r = (0 : ℝ) from rfl, show ctxA.q = (0 : ℝ) from rfl, ctxA_iv,
    bsCallDelta_sigma0, if_pos (by norm_num : (100 : ℝ) < 502 / 5)]

theorem dayStepA1 :
    dayStep ctxA { cash := 40, shares := 100, openCall := some ⟨100, 0.4, 1, 0, 2⟩ } 1
      = ({ cash := 40, shares := 100, openCall := some ⟨100, 0.4, 1, 1, 7⟩ },
         { ccValue := 10080, callStrike := some 100, callDelta := some 1,
           events := [{ index := 1, date := ⟨2025, 1, 2⟩, totalValue := 10040,
                        pnl := 0, strike := 100, underlying := 100.4,
                        premium := 0.4, qty := 1, typ := .roll, delta := some 1,
                        rollReason := some .scheduled }],
           rollEvents := [] }) := by
  have hS1 := ctxA_getD 1 (by norm_num)
  have hnew : rollNewExpIdx ctxA.n 1 2 = 7 := by
    rw [show ctxA.n = 8 from rfl]
    decide
  have h1 : rollPhase ctxA 1
      { cash := 40, shares := 100, openCall := some ⟨100, 0.4, 1, 0, 2⟩ }
      = ({ cash := (40 : ℝ), shares := 100,
            openCall := some ⟨100, 0.4, 1, 1, rollNewExpIdx ctxA.n 1 2⟩ },
         some { index := 1, date := ctxA.dates.getD 1 default,
                 totalValue := (40 : ℝ) - 40 + 100 * 100.4,
                 pnl := ((0.4 : ℝ) - 0.4) * 100,
                 strike := 100, underlying := 100.4, premium := 0.4,
                 qty := 1, typ := .roll, delta := some 1,
                 rollReason := some .scheduled },
         none) :=
    rollPhase_sched_eval1004 ctxA 1 _ ⟨100, 0.4, 1, 0, 2⟩ 2 rfl rfl
      (by norm_num) (by norm_num) ctxA_off (by decide) rfl rfl rfl ctxA_base
      rfl rfl ctxA_iv rfl rfl hS1 ctxA_std
  rw [hnew] at h1
  have h2 : openPhase ctxA 1
      { cash := (40 : ℝ), shares := 100, openCall := some ⟨100, 0.4, 1, 1, 7⟩ }
      = { cash := (40 : ℝ), shares := 100, openCall := some ⟨100, 0.4, 1, 1, 7⟩ } :=
    openPhase_some _ _ _ ⟨100, 0.4, 1, 1, 7⟩ rfl
  have h3 : settlePhase ctxA 1
      { cash := (40 : ℝ), shares := 100, openCall := some ⟨100, 0.4, 1, 1, 7⟩ }
      = ({ cash := (40 : ℝ), shares := 100,
            openCall := some ⟨100, 0.4, 1, 1, 7⟩ }, none) :=
    settlePhase_noexp _ _ _ ⟨100, 0.4, 1, 1, 7⟩ rfl (by norm_num)
      (by
        intro h
        rw [show ctxA.n = 8 from rfl] at h
        omega)
  simp only [dayStep, h1, h2, h3, hS1, ctxA_date1]
  norm_num [Option.toList, Prod.mk.injEq, EngState.mk.injEq, DayOut.mk.injEq,
    SettlementEvent.mk.injEq, List.cons.injEq]
  rw [show ctxA.r = (0 : ℝ) from rfl, show ctxA.q = (0 : ℝ) from rfl, ctxA_iv,
    bsCallDelta_sigma0, if_pos (by norm_num : (100 : ℝ) < 502 / 5)]

/-- The roll check does nothing when rolling is disabled. -/
theorem rollPhase_disabled (C : Ctx) (i : ℕ) (st : EngState)
    (h : C.enableRoll = false) : rollPhase C i st = (st, none, none) := by
  cases hoc : st.openCall with
  | none => exact rollPhase_none C i st hoc
  | some oc =>
    simp only [rollPhase, hoc]
    rw [if_pos (by simp [h])]

/-- Evaluation of an assigned expiry settlement in the concrete setting:
strike 100, spot 100.4, one contract, 100 shares held.  100 shares are
delivered at 100 and rebought at 100.4 (net cash -40), the share count is
restored, and the position is cleared. -/
theorem settlePhase_eval1004 (C : Ctx) (i : ℕ) (st : EngState) (oc : OpenCall)
    (hoc : st.openCall = some oc) (hexp : oc.expIdx = i)
    (hstrike : oc.strike = 100) (hq1 : oc.qty = 1) (hsh : st.shares = 100)
    (hS : C.prices.getD i 0 = 100.4) :
    settlePhase C i st
      = ({ cash := st.cash - 40, shares := 100, openCall := none },
         some { pnl := (oc.premium - 0.4) * 100, strike := 100,
                underlying := 100.4, premium := oc.premium, qty := 1,
                typ := .expiry, delta := some 1, rollReason := none }) := by
  simp only [settlePhase, hoc]
  rw [if_pos (Or.inl hexp)]
  have hsdr : settleDeliverRebuy oc.strike (C.prices.getD i 0) oc.qty st.cash st.shares
      = (st.cash - 40, 100) := by
    rw [hstrike, hS, hq1, hsh]
    unfold settleDeliverRebuy
    rw [if_pos (by norm_num : (100 : ℝ) < 100.4)]
    rw [if_pos (by norm_num : (0 : ℤ) < 1)]
    norm_num
    ring
  rw [hsdr, hstrike, hS, hq1]
  simp only [Prod.mk.injEq, EngState.mk.injEq, Option.some.injEq,
    SettlementNote.mk.injEq]
  norm_num

/-- Three trading days in one ISO week, for an expiry-settlement run. -/
def datesC : List Ymd := [⟨2025, 1, 1⟩, ⟨2025, 1, 2⟩, ⟨2025, 1, 3⟩]

def ohlcC : List OhlcRow := datesC.map bar1004

noncomputable def ctxC : Ctx := mkCtx ohlcC paramsNoSkip

theorem datesC_map : ohlcC.map (fun r => r.date) = datesC := rfl

theorem pricesC : ohlcC.map (fun r => r.adjClose.getD r.close)
    = List.replicate 3 (100.4 : ℝ) := by
  simp [ohlcC, datesC, bar1004]

theorem ctxC_iv : ctxC.iv = 0 := by
  show estimateHV (ohlcC.map (fun r => r.adjClose.getD r.close)) = 0
  rw [pricesC]
  apply estimateHV_const 100.4 (by norm_num)
  · intro x hx
    simpa using List.eq_of_mem_replicate hx
  · simp

theorem ctxC_getD (i : ℕ) (h : i < 3) : ctxC.prices.getD i 0 = 100.4 := by
  show (ohlcC.map (fun r => r.adjClose.getD r.close)).getD i 0 = 100.4
  rw [pricesC]
  rw [List.getD_eq_getElem?_getD, List.getElem?_replicate]
  simp [h]

theorem ctxC_pairs : ctxC.cyclePairs = [(0, 2)] := by
  show pairUp (generateCycleBoundaries (ohlcC.map (fun r => r.date)) .weekly) = [(0, 2)]
  rw [datesC_map]
  decide

theorem ctxC_find0 : ctxC.cyclePairs.find? (fun p => p.1 == 0) = some (0, 2) := by
  rw [ctxC_pairs]
  rfl

theorem ctxC_earn02 : hasEarningsInCycle ctxC 0 2 = false := by
  unfold hasEarningsInCycle
  rw [show ctxC.skipEarningsWeek = false from rfl]
  simp

theorem ctxC_base : ctxC.baseContractQty = 1 := ctxA_base

theorem ctxC_std : ctxC.strikeTargetDelta = 0.3 := ctxA_std

theorem dayStepC0 :
    dayStep ctxC { cash := 0, shares := 100, openCall := none } 0
      = ({ cash := 40, shares := 100, openCall := some ⟨100, 0.4, 1, 0, 2⟩ },
         { ccValue := 10080, callStrike := some 100, callDelta := some 1,
           events := [], rollEvents := [] }) := by
  have hS0 := ctxC_getD 0 (by norm_num)
  have h1 : rollPhase ctxC 0 { cash := 0, shares := 100, openCall := none }
      = ({ cash := 0, shares := 100, openCall := none }, none, none) :=
    rollPhase_disabled _ _ _ rfl
  have h2 : openPhase ctxC 0 { cash := 0, shares := 100, openCall := none }
      = { cash := (0 : ℝ) + 40, shares := 100, openCall := some ⟨100, 0.4, 1, 0, 2⟩ } :=
    openPhase_eval1004 ctxC 0 _ (0, 2) rfl ctxC_find0 ctxC_earn02 rfl ctxC_base rfl rfl
      ctxC_iv rfl rfl hS0 ctxC_std
  have h3 : settlePhase ctxC 0
      { cash := (0 : ℝ) + 40, shares := 100, openCall := some ⟨100, 0.4, 1, 0, 2⟩ }
      = ({ cash := (0 : ℝ) + 40, shares := 100,
            openCall := some ⟨100, 0.4, 1, 0, 2⟩ }, none) :=
    settlePhase_noexp _ _ _ ⟨100, 0.4, 1, 0, 2⟩ rfl (by norm_num)
      (by
        intro h
        rw [show ctxC.n = 3 from rfl] at h
        omega)
  simp only [dayStep, h1, h2, h3, hS0]
  norm_num [Option.toList, Prod.mk.injEq, EngState.mk.injEq, DayOut.mk.injEq]
  rw [show ctxC.r = (0 : ℝ) from rfl, show ctxC.q = (0 : ℝ) from rfl, ctxC_iv,
    bsCallDelta_sigma0, if_pos (by norm_num : (100 : ℝ) < 502 / 5)]

theorem dayStepC1 :
    dayStep ctxC { cash := 40, shares := 100, openCall := some ⟨100, 0.4, 1, 0, 2⟩ } 1
      = ({ cash := 40, shares := 100, openCall := some ⟨100, 0.4, 1, 0, 2⟩ },
         { ccValue := 10080, callStrike := some 100, callDelta := some 1,
           events := [], rollEvents := [] }) := by
  have hS1 := ctxC_getD 1 (by norm_num)
  have h1 : rollPhase ctxC 1
      { cash := (40 : ℝ), shares := 100, openCall := some ⟨100, 0.4, 1, 0, 2⟩ }
      = ({ cash := (40 : ℝ), shares := 100,
            openCall := some ⟨100, 0.4, 1, 0, 2⟩ }, none, none) :=
    rollPhase_disabled _ _ _ rfl
  have h2 : openPhase ctxC 1
      { cash := (40 : ℝ), shares := 100, openCall := some ⟨100, 0.4, 1, 0, 2⟩ }
      = { cash := (40 : ℝ), shares := 100, openCall := some ⟨100, 0.4, 1, 0, 2⟩ } :=
    openPhase_some _ _ _ ⟨100, 0.4, 1, 0, 2⟩ rfl
  have h3 : settlePhase ctxC 1
      { cash := (40 : ℝ), shares := 100, openCall := some ⟨100, 0.4, 1, 0, 2⟩ }
      = ({ cash := (40 : ℝ), shares := 100,
            openCall := some ⟨100, 0.4, 1, 0, 2⟩ }, none) :=
    settlePhase_noexp _ _ _ ⟨100, 0.4, 1, 0, 2⟩ rfl (by norm_num)
      (by
        intro h
        rw [show ctxC.n = 3 from rfl] at h
        omega)
  simp only [dayStep, h1, h2, h3, hS1]
  norm_num [Option.toList, Prod.mk.injEq, EngState.mk.injEq, DayOut.mk.injEq]
  rw [show ctxC.r = (0 : ℝ) from rfl, show ctxC.q = (0 : ℝ) from rfl, ctxC_iv,
    bsCallDelta_sigma0, if_pos (by norm_num : (100 : ℝ) < 502 / 5)]

theorem dayStepC2 :
    dayStep ctxC { cash := 40, shares := 100, openCall := some ⟨100, 0.4, 1, 0, 2⟩ } 2
      = ({ cash := 0, shares := 100, openCall := none },
         { ccValue := 10040, callStrike := none, callDelta := none,
           events := [{ index := 2, date := ⟨2025, 1, 3⟩, totalValue := 10040,
                        pnl := 0, strike := 100, underlying := 100.4,
                        premium := 0.4, qty := 1, typ := .expiry, delta := some 1,
                        rollReason := none }],
           rollEvents := [] }) := by
  have hS2 := ctxC_getD 2 (by norm_num)
  have h1 : rollPhase ctxC 2
      { cash := (40 : ℝ), shares := 100, openCall := some ⟨100, 0.4, 1, 0, 2⟩ }
      = ({ cash := (40 : ℝ), shares := 100,
            openCall := some ⟨100, 0.4, 1, 0, 2⟩ }, none, none) :=
    rollPhase_disabled _ _ _ rfl
  have h2 : openPhase ctxC 2
      { cash := (40 : ℝ), shares := 100, openCall := some ⟨100, 0.4, 1, 0, 2⟩ }
      = { cash := (40 : ℝ), shares := 100, openCall := some ⟨100, 0.4, 1, 0, 2⟩ } :=
    openPhase_some _ _ _ ⟨100, 0.4, 1, 0, 2⟩ rfl
  have h3 : settlePhase ctxC 2
      { cash := (40 : ℝ), shares := 100, openCall := some ⟨100, 0.4, 1, 0, 2⟩ }
      = ({ cash := (40 : ℝ) - 40, shares := 100, openCall := none },
         some { pnl := ((0.4 : ℝ) - 0.4) * 100, strike := 100,
                underlying := 100.4, premium := 0.4, qty := 1,
                typ := .expiry, delta := some 1, rollReason := none }) :=
    settlePhase_eval1004 ctxC 2 _ ⟨100, 0.4, 1, 0, 2⟩ rfl rfl rfl rfl rfl hS2
  have hdate2 : ctxC.dates.getD 2 default = (⟨2025, 1, 3⟩ : Ymd) := by
    show (ohlcC.map (fun r => r.date)).getD 2 default = _
    rw [datesC_map]
    rfl
  simp only [dayStep, h1, h2, h3, hS2, hdate2]
  norm_num [Option.toList, Prod.mk.injEq, EngState.mk.injEq, DayOut.mk.injEq,
    SettlementEvent.mk.injEq]

theorem ctxSkip_pairs : ctxSkip.cyclePairs = [(0, 2), (3, 7)] := by
  show pairUp (generateCycleBoundaries (ohlcA.map (fun r => r.date)) .weekly)
    = [(0, 2), (3, 7)]
  rw [datesA_map]
  decide

theorem ctxSkip_find0 : ctxSkip.cyclePairs.find? (fun p => p.1 == 0) = some (0, 2) := by
  rw [ctxSkip_pairs]
  rfl

/-- Day 0 of the earnings-avoidance run: the cycle starting today has an
earnings day, so no position is opened; the curve point carries no strike. -/
theorem dayStepSkip0 :
    dayStep ctxSkip { cash := 0, shares := 100, openCall := none } 0
      = ({ cash := 0, shares := 100, openCall := none },
         { ccValue := 10040, callStrike := none, callDelta := none,
           events := [], rollEvents := [] }) := by
  have hS0 : ctxSkip.prices.getD 0 0 = 100.4 := by
    show (ohlcA.map (fun r => r.adjClose.getD r.close)).getD 0 0 = 100.4
    rw [pricesA]
    rfl
  have h1 : rollPhase ctxSkip 0 { cash := 0, shares := 100, openCall := none }
      = ({ cash := 0, shares := 100, openCall := none }, none, none) :=
    rollPhase_disabled _ _ _ rfl
  have h2 : openPhase ctxSkip 0 { cash := 0, shares := 100, openCall := none }
      = { cash := 0, shares := 100, openCall := none } :=
    openPhase_earnings ctxSkip 0 _ (0, 2) rfl ctxSkip_find0 ctxSkip_earn02
  have h3 : settlePhase ctxSkip 0 { cash := 0, shares := 100, openCall := none }
      = ({ cash := 0, shares := 100, openCall := none }, none) :=
    settlePhase_none _ _ _ rfl
  simp only [dayStep, h1, h2, h3, hS0]
  norm_num [Option.toList, Prod.mk.injEq, DayOut.mk.injEq]

theorem ctxNoSkip_pairs : ctxNoSkip.cyclePairs = [(0, 2), (3, 7)] := ctxSkip_pairs

theorem ctxNoSkip_find0 : ctxNoSkip.cyclePairs.find? (fun p => p.1 == 0)
    = some (0, 2) := by
  rw [ctxNoSkip_pairs]
  rfl

/-- Day 0 of the identical run with earnings-avoidance off: the position
opens at strike 100. -/
theorem dayStepNoSkip0 :
    dayStep ctxNoSkip { cash := 0, shares := 100, openCall := none } 0
      = ({ cash := 40, shares := 100, openCall := some ⟨100, 0.4, 1, 0, 2⟩ },
         { ccValue := 10080, callStrike := some 100, callDelta := some 1,
           events := [], rollEvents := [] }) := by
  have hS0 : ctxNoSkip.prices.getD 0 0 = 100.4 := by
    show (ohlcA.map (fun r => r.adjClose.getD r.close)).getD 0 0 = 100.4
    rw [pricesA]
    rfl
  have h1 : rollPhase ctxNoSkip 0 { cash := 0, shares := 100, openCall := none }
      = ({ cash := 0, shares := 100, openCall := none }, none, none) :=
    rollPhase_disabled _ _ _ rfl
  have h2 : openPhase ctxNoSkip 0 { cash := 0, shares := 100, openCall := none }
      = { cash := (0 : ℝ) + 40, shares := 100, openCall := some ⟨100, 0.4, 1, 0, 2⟩ } :=
    openPhase_eval1004 ctxNoSkip 0 _ (0, 2) rfl ctxNoSkip_find0 ctxNoSkip_earn02 rfl
      ctxA_base rfl rfl ctxNoSkip_iv rfl rfl hS0 ctxA_std
  have h3 : settlePhase ctxNoSkip 0
      { cash := (0 : ℝ) + 40, shares := 100, openCall := some ⟨100, 0.4, 1, 0, 2⟩ }
      = ({ cash := (0 : ℝ) + 40, shares := 100,
            openCall := some ⟨100, 0.4, 1, 0, 2⟩ }, none) :=
    settlePhase_noexp _ _ _ ⟨100, 0.4, 1, 0, 2⟩ rfl (by norm_num)
      (by
        intro h
        rw [show ctxNoSkip.n = 8 from rfl] at h
        omega)
  simp only [dayStep, h1, h2, h3, hS0]
  norm_num [Option.toList, Prod.mk.injEq, EngState.mk.injEq, DayOut.mk.injEq]
  rw [show ctxNoSkip.r = (0 : ℝ) from rfl, show ctxNoSkip.q = (0 : ℝ) from rfl,
    ctxNoSkip_iv, bsCallDelta_sigma0, if_pos (by norm_num : (100 : ℝ) < 502 / 5)]

theorem ctxB_find0 : ctxB.cyclePairs.find? (fun p => p.1 == 0) = some (0, 2) := by
  rw [ctxB_pairs]
  rfl

theorem ctxB_base : ctxB.baseContractQty = 1 := ctxA_base

theorem ctxB_std : ctxB.strikeTargetDelta = 0.3 := ctxA_std

theorem ctxB_off : ctxB.scheduledRollOffset = some 2 := ctxA_off

theorem ctxB_earn02 : hasEarningsInCycle ctxB 0 2 = false := by
  unfold hasEarningsInCycle
  rw [show ctxB.skipEarningsWeek = false from rfl]
  simp

/-- Day 0 of the 9-day rolling run: same open as in the 8-day run. -/
theorem dayStepB0 :
    dayStep ctxB { cash := 0, shares := 100, openCall := none } 0
      = ({ cash := 40, shares := 100, openCall := some ⟨100, 0.4, 1, 0, 2⟩ },
         { ccValue := 10080, callStrike := some 100, callDelta := some 1,
           events := [], rollEvents := [] }) := by
  have hS0 := ctxB_getD 0 (by norm_num)
  have h1 : rollPhase ctxB 0 { cash := 0, shares := 100, openCall := none }
      = ({ cash := 0, shares := 100, openCall := none }, none, none) :=
    rollPhase_none _ _ _ rfl
  have h2 : openPhase ctxB 0 { cash := 0, shares := 100, openCall := none }
      = { cash := (0 : ℝ) + 40, shares := 100, openCall := some ⟨100, 0.4, 1, 0, 2⟩ } :=
    openPhase_eval1004 ctxB 0 _ (0, 2) rfl ctxB_find0 ctxB_earn02 rfl ctxB_base rfl rfl
      ctxB_iv rfl rfl hS0 ctxB_std
  have h3 : settlePhase ctxB 0
      { cash := (0 : ℝ) + 40, shares := 100, openCall := some ⟨100, 0.4, 1, 0, 2⟩ }
      = ({ cash := (0 : ℝ) + 40, shares := 100,
            openCall := some ⟨100, 0.4, 1, 0, 2⟩ }, none) :=
    settlePhase_noexp _ _ _ ⟨100, 0.4, 1, 0, 2⟩ rfl (by norm_num)
      (by
        intro h
        rw [show ctxB.n = 9 from rfl] at h
        omega)
  simp only [dayStep, h1, h2, h3, hS0]
  norm_num [Option.toList, Prod.mk.injEq, EngState.mk.injEq, DayOut.mk.injEq]
  rw [show ctxB.r = (0 : ℝ) from rfl, show ctxB.q = (0 : ℝ) from rfl, ctxB_iv,
    bsCallDelta_sigma0, if_pos (by norm_num : (100 : ℝ) < 502 / 5)]

/-! ### Run-level extraction lemmas -/

/-- The starting ledger of a run. -/
noncomputable def initState (C : Ctx) : EngState :=
  { cash := C.initialCapital, shares := C.sharesInit, openCall := none }

/-- The settlements of a run are the per-day event lists, flattened in day
order. -/
theorem runFromCtx_settlements (C : Ctx) :
    (runFromCtx C).settlements
      = (((runOn C (initState C) (List.range C.n)).1).map
          (fun o => o.events)).flatten := rfl

/-- The curve point at an index k carried by the input: its strike column is
the day's recorded strike and its covered-call column the day's recorded
total. -/
theorem runFromCtx_curve_get (C : Ctx) (k : ℕ) (d : Ymd)
    (hd : C.dates.get? k = some d) :
    ∃ p, (runFromCtx C).curve.get? k = some p ∧
      p.callStrike = (((runOn C (initState C) (List.range C.n)).1.get? k).bind
        (fun o => o.callStrike)) ∧
      p.coveredCall = (((runOn C (initState C) (List.range C.n)).1.map
        (fun o => o.ccValue)).getD k 0) := by
  simp only [runFromCtx]
  rw [List.get?_eq_getElem?, List.getElem?_map, List.getElem?_enum,
    ← List.get?_eq_getElem?, hd]
  exact ⟨_, rfl, rfl, rfl⟩

theorem initState_Skip : initState ctxSkip
    = { cash := 0, shares := 100, openCall := none } := rfl

theorem initState_NoSkip : initState ctxNoSkip
    = { cash := 0, shares := 100, openCall := none } := rfl

theorem initState_A : initState ctxA
    = { cash := 0, shares := 100, openCall := none } := rfl

theorem initState_B : initState ctxB
    = { cash := 0, shares := 100, openCall := none } := rfl

theorem initState_C : initState ctxC
    = { cash := 0, shares := 100, openCall := none } := rfl

theorem rangeSkip : List.range ctxSkip.n = 0 :: [1, 2, 3, 4, 5, 6, 7] := by
  rw [show ctxSkip.n = 8 from rfl]
  decide

theorem rangeNoSkip : List.range ctxNoSkip.n = 0 :: [1, 2, 3, 4, 5, 6, 7] := rangeSkip

theorem rangeA : List.range ctxA.n = 0 :: 1 :: [2, 3, 4, 5, 6, 7] := by
  rw [show ctxA.n = 8 from rfl]
  decide

theorem rangeB : List.range ctxB.n = 0 :: 1 :: [2, 3, 4, 5, 6, 7, 8] := by
  rw [show ctxB.n = 9 from rfl]
  decide

theorem rangeC : List.range ctxC.n = 0 :: 1 :: 2 :: [] := by
  rw [show ctxC.n = 3 from rfl]
  decide

/-! ### Claim C2 -/

/-- Counterexample to claim C2: on the 8-day series whose first cycle is
(0, 2) and contains the earnings date 2025-01-02, running with
earnings-avoidance enabled opens no position in cycle 0 (the day-0 curve
point has no strike), while the identical run with avoidance disabled does
open one at strike 100.  Cycle 0 is not exempt. -/
theorem C2_counterexample :
    hasEarningsInCycle ctxSkip 0 2 = true ∧
    ctxSkip.cyclePairs.get? 0 = some (0, 2) ∧
    ((runBacktest ohlcA paramsSkip).curve.get? 0).map (fun p => p.callStrike)
      = some none ∧
    ((runBacktest ohlcA paramsNoSkip).curve.get? 0).map (fun p => p.callStrike)
      = some (some 100) := by
  refine ⟨ctxSkip_earn02, by rw [ctxSkip_pairs]; rfl, ?_, ?_⟩
  · obtain ⟨p, hp, hstrike, _⟩ := runFromCtx_curve_get ctxSkip 0 ⟨2025, 1, 1⟩
      (by
        show (ohlcA.map (fun r => r.date)).get? 0 = some _
        rw [datesA_map]
        rfl)
    show ((runFromCtx ctxSkip).curve.get? 0).map (fun p => p.callStrike) = some none
    rw [hp, Option.map_some', hstrike, initState_Skip, rangeSkip]
    simp only [runOn, dayStepSkip0]
    rfl
  · obtain ⟨p, hp, hstrike, _⟩ := runFromCtx_curve_get ctxNoSkip 0 ⟨2025, 1, 1⟩
      (by
        show (ohlcA.map (fun r => r.date)).get? 0 = some _
        rw [datesA_map]
        rfl)
    show ((runFromCtx ctxNoSkip).curve.get? 0).map (fun p => p.callStrike)
      = some (some 100)
    rw [hp, Option.map_some', hstrike, initState_NoSkip, rangeNoSkip]
    simp only [runOn, dayStepNoSkip0]
    rfl

/-- Claim C2 (amended): with earnings-avoidance enabled, every cycle whose
day range contains a known earnings date is skipped for new sales, with no
exemption for cycle 0: when no position is open and today starts such a
cycle, the day leaves the ledger untouched and no position open. -/
theorem C2_amended_no_cycle0_exemption (C : Ctx) (i : ℕ) (st : EngState) (se : ℕ × ℕ)
    (hoc : st.openCall = none)
    (hfind : C.cyclePairs.find? (fun p => p.1 == i) = some se)
    (hearn : hasEarningsInCycle C se.1 se.2 = true) :
    openPhase C i st = st ∧ (openPhase C i st).openCall = none := by
  have h := openPhase_earnings C i st se hoc hfind hearn
  exact ⟨h, by rw [h, hoc]⟩

/-- Witness for the amended C2 at the concrete earnings run: day 0 with the
earnings date in cycle 0 leaves the state untouched. -/
theorem C2_amended_no_cycle0_exemption_witness :
    openPhase ctxSkip 0 { cash := 0, shares := 100, openCall := none }
      = { cash := 0, shares := 100, openCall := none } :=
  (C2_amended_no_cycle0_exemption ctxSkip 0 _ (0, 2) rfl ctxSkip_find0
    ctxSkip_earn02).1

/-! ### Claim C3 -/

theorem ctxNoSkip_base : ctxNoSkip.baseContractQty = 1 := ctxA_base

/-- Claim C3 (amended): when a new position opens on the start day i of the
cycle (startIdx, endIdx), the engine prices it and solves the strike at the
term openTermFn startIdx endIdx = max((endIdx - startIdx + 1)/252, 1/252) -
one day longer than the claimed (plannedExpiry - i)/252. -/
theorem C3_amended_open_term (C : Ctx) (i : ℕ) (st : EngState) (se : ℕ × ℕ)
    (hoc : st.openCall = none)
    (hfind : C.cyclePairs.find? (fun p => p.1 == i) = some se)
    (hearn : hasEarningsInCycle C se.1 se.2 = false)
    (hqty : 0 < (if C.dynamicContracts then ⌊st.shares / 100⌋ else C.baseContractQty)) :
    ∃ oc, (openPhase C i st).openCall = some oc ∧
      oc.expIdx = se.2 ∧ oc.sellIdx = i ∧
      oc.premium = bsCallPrice (C.prices.getD i 0) oc.strike C.r C.q C.iv
        (openTermFn se.1 se.2) ∧
      openTermFn se.1 se.2 = max (((se.2 : ℝ) - (se.1 : ℝ) + 1) / 252) (1 / 252) := by
  simp only [openPhase, hoc, hfind, hearn, Bool.false_eq_true, if_false]
  rw [if_pos hqty]
  exact ⟨_, rfl, rfl, rfl, rfl, rfl⟩

/-- Witness for the amended C3: the day-0 open of the concrete 8-day run. -/
theorem C3_amended_open_term_witness :
    ∃ oc, (openPhase ctxNoSkip 0
        { cash := 0, shares := 100, openCall := none }).openCall = some oc ∧
      oc.expIdx = 2 ∧ oc.sellIdx = 0 ∧
      oc.premium = bsCallPrice (ctxNoSkip.prices.getD 0 0) oc.strike
        ctxNoSkip.r ctxNoSkip.q ctxNoSkip.iv (openTermFn 0 2) ∧
      openTermFn 0 2 = max (((2 : ℕ) - ((0 : ℕ) : ℝ) + 1) / 252) (1 / 252) :=
  C3_amended_open_term ctxNoSkip 0 _ (0, 2) rfl ctxNoSkip_find0 ctxNoSkip_earn02
    (by
      rw [show ctxNoSkip.dynamicContracts = false from rfl]
      simp only [Bool.false_eq_true, if_false, ctxNoSkip_base]
      norm_num)

/-- Counterexample to claim C3: at the concrete input the cycle starting at
day 0 ends at index 2, and the term the engine uses there, 3/252 (the
(endIdx - i + 1) day count of line 269), differs from the claimed
max((plannedExpiry - i)/252, 1/252) = 2/252. -/
theorem C3_counterexample :
    ctxNoSkip.cyclePairs.find? (fun p => p.1 == 0) = some (0, 2) ∧
    openTermFn 0 2 ≠ max (((2 : ℝ) - 0) / 252) (1 / 252) := by
  refine ⟨ctxNoSkip_find0, ?_⟩
  have h1 : openTermFn 0 2 = 3 / 252 := by
    unfold openTermFn
    rw [max_eq_left (by norm_num)]
    norm_num
  have h2 : max (((2 : ℝ) - 0) / 252) (1 / 252) = 2 / 252 := by
    rw [max_eq_left (by norm_num)]
    norm_num
  rw [h1, h2]
  norm_num

/-! ### Claim C1 -/

/-- Written from the spec's words, for comparison with the engine (claim
C1): a cycle is eligible when it is cycle 0 or contains no earnings date. -/
def specCycleEligible (C : Ctx) (idx : ℕ) (c : ℕ × ℕ) : Bool :=
  idx == 0 || !(hasEarningsInCycle C c.1 c.2)

/-- Written from the spec's words (claim C1): the end index of the next
eligible cycle after the cycle whose end index is expIdx. -/
def specNextEligibleCycleEnd (C : Ctx) (expIdx : ℕ) : Option ℕ :=
  match (C.cyclePairs.enum).find? (fun p => p.2.2 == expIdx) with
  | none => none
  | some cur =>
    ((C.cyclePairs.enum).find?
      (fun p => decide (cur.1 < p.1) && specCycleEligible C p.1 p.2)).map
      (fun p => p.2.2)

/-- Written from the spec's words (claim C1): the rolled contract's next
expiry - the end of the next eligible cycle when one exists, else extend by
the original contract's day-length from i (capped at the last index). -/
def specRolledExpiry (C : Ctx) (i : ℕ) (oc : OpenCall) : ℕ :=
  match specNextEligibleCycleEnd C oc.expIdx with
  | some e => e
  | none => min (C.n - 1) (i + (oc.expIdx - oc.sellIdx + 1))

/-- Claim C1 (amended): when a roll fires on day i and the new contract
count is positive, the reopened position's expiry index is
rollNewExpIdx = min(n-1, expIdx+5), replaced by min(n-1, i+1) when that
does not lie strictly after i - not the end of the next eligible cycle. -/
theorem C1_amended_rolled_expiry (C : Ctx) (i : ℕ) (st : EngState) (oc : OpenCall)
    (hoc : st.openCall = some oc) (hen : C.enableRoll = true) (hile : i ≤ oc.expIdx)
    (hfire : (2 < oc.expIdx - i ∧ C.rollDeltaTrigger
        ≤ bsCallDelta (C.prices.getD i 0) oc.strike C.r C.q C.iv
            (max (((oc.expIdx - i : ℕ) : ℝ) / 252) (1 / 252))) ∨
      (∃ off, C.scheduledRollOffset = some off ∧
        max (oc.sellIdx : ℤ) ((oc.expIdx : ℤ) - off) ≤ (i : ℤ)))
    (hqty : 0 < (if C.dynamicContracts then ⌊st.shares / 100⌋ else C.baseContractQty)) :
    ∃ oc2, (rollPhase C i st).1.openCall = some oc2 ∧
      oc2.expIdx = rollNewExpIdx C.n i oc.expIdx ∧
      rollNewExpIdx C.n i oc.expIdx
        = (if min (C.n - 1) (oc.expIdx + 5) ≤ i then min (C.n - 1) (i + 1)
           else min (C.n - 1) (oc.expIdx + 5)) := by
  simp only [rollPhase, hoc]
  rw [if_neg (by simp [hen])]
  rw [if_neg (not_lt.mpr hile)]
  have hcond : (2 < oc.expIdx - i ∧ C.rollDeltaTrigger
      ≤ bsCallDelta (C.prices.getD i 0) oc.strike C.r C.q C.iv
          (max (((oc.expIdx - i : ℕ) : ℝ) / 252) (1 / 252))) ∨
      (match C.scheduledRollOffset with
       | none => False
       | some off => max (oc.sellIdx : ℤ) ((oc.expIdx : ℤ) - off) ≤ (i : ℤ)) := by
    rcases hfire with h | ⟨off, hoff, hle⟩
    · exact Or.inl h
    · rw [hoff]
      exact Or.inr hle
  rw [if_pos hcond]
  rw [if_pos hqty]
  exact ⟨_, rfl, rfl, rfl⟩

/-- Witness for the amended C1: the scheduled roll on day 1 of the 9-day
run reopens with expiry index min(8, 2+5) = 7. -/
theorem C1_amended_rolled_expiry_witness :
    ∃ oc2, (rollPhase ctxB 1 { cash := 40, shares := 100, openCall := some ⟨100, 0.4, 1, 0, 2⟩ }).1.openCall = some oc2 ∧
      oc2.expIdx = rollNewExpIdx ctxB.n 1 2 ∧
      rollNewExpIdx ctxB.n 1 2
        = (if min (ctxB.n - 1) (2 + 5) ≤ 1 then min (ctxB.n - 1) (1 + 1)
           else min (ctxB.n - 1) (2 + 5)) :=
  C1_amended_rolled_expiry ctxB 1 _ ⟨100, 0.4, 1, 0, 2⟩ rfl rfl (by norm_num)
    (Or.inr ⟨2, ctxB_off, by decide⟩)
    (by
      rw [show ctxB.dynamicContracts = false from rfl]
      simp only [Bool.false_eq_true, if_false, ctxB_base]
      norm_num)

/-- Counterexample to claim C1: on the 9-day input whose cycles are (0,2),
(3,6), (7,8), the day-0 open carries expiry 2; the roll that fires on day 1
reopens with expiry index 7 (= min(8, 2+5)), although the next eligible
cycle after the current one ends at index 6, which the claim says should be
preferred. -/
theorem C1_counterexample :
    (dayStep ctxB { cash := 0, shares := 100, openCall := none } 0).1
      = { cash := 40, shares := 100, openCall := some ⟨100, 0.4, 1, 0, 2⟩ } ∧
    ((rollPhase ctxB 1 { cash := 40, shares := 100, openCall := some ⟨100, 0.4, 1, 0, 2⟩ }).2.1).isSome = true ∧
    ((rollPhase ctxB 1 { cash := 40, shares := 100, openCall := some ⟨100, 0.4, 1, 0, 2⟩ }).1.openCall).map
      (fun c => c.expIdx) = some 7 ∧
    specRolledExpiry ctxB 1 ⟨100, 0.4, 1, 0, 2⟩ = 6 ∧ (7 : ℕ) ≠ 6 := by
  have hnew : rollNewExpIdx ctxB.n 1 2 = 7 := by
    rw [show ctxB.n = 9 from rfl]
    decide
  have hro := rollPhase_sched_eval1004 ctxB 1
    { cash := 40, shares := 100, openCall := some ⟨100, 0.4, 1, 0, 2⟩ }
    ⟨100, 0.4, 1, 0, 2⟩ 2 rfl rfl (by norm_num) (by norm_num) ctxB_off (by decide)
    rfl rfl rfl ctxB_base rfl rfl ctxB_iv rfl rfl (ctxB_getD 1 (by norm_num)) ctxB_std
  rw [hnew] at hro
  have hne : ∀ s e, hasEarningsInCycle ctxB s e = false := by
    intro s e
    unfold hasEarningsInCycle
    rw [show ctxB.skipEarningsWeek = false from rfl]
    simp
  refine ⟨by rw [dayStepB0], by rw [hro]; rfl, by rw [hro]; rfl, ?_, by norm_num⟩
  unfold specRolledExpiry specNextEligibleCycleEnd specCycleEligible
  rw [ctxB_pairs]
  simp [hne, List.find?]

/-! ### Claim C4 -/

/-- Any roll record emitted by the roll phase carries today's index and the
roll type. -/
theorem rollPhase_rec_roll (C : Ctx) (i : ℕ) (st : EngState) :
    ∀ rec, (rollPhase C i st).2.1 = some rec → rec.index = i ∧ rec.typ = .roll := by
  intro rec h
  cases hoc : st.openCall with
  | none =>
    rw [rollPhase_none C i st hoc] at h
    simp at h
  | some oc =>
    by_cases hen : C.enableRoll = true
    · by_cases hexp : oc.expIdx < i
      · simp only [rollPhase, hoc] at h
        rw [if_neg (by simp [hen]), if_pos hexp] at h
        simp at h
      · by_cases hfire : (2 < oc.expIdx - i ∧ C.rollDeltaTrigger
            ≤ bsCallDelta (C.prices.getD i 0) oc.strike C.r C.q C.iv
                (max (((oc.expIdx - i : ℕ) : ℝ) / 252) (1 / 252))) ∨
          (match C.scheduledRollOffset with
           | none => False
           | some off => max (oc.sellIdx : ℤ) ((oc.expIdx : ℤ) - off) ≤ (i : ℤ))
        · simp only [rollPhase, hoc] at h
          rw [if_neg (by simp [hen]), if_neg hexp, if_pos hfire] at h
          by_cases hq : 0 < (if C.dynamicContracts then ⌊st.shares / 100⌋
              else C.baseContractQty)
          · rw [if_pos hq] at h
            dsimp only at h
            rw [Option.some.injEq] at h
            subst h
            exact ⟨rfl, rfl⟩
          · rw [if_neg hq] at h
            dsimp only at h
            rw [Option.some.injEq] at h
            subst h
            exact ⟨rfl, rfl⟩
        · simp only [rollPhase, hoc] at h
          rw [if_neg (by simp [hen]), if_neg hexp, if_neg hfire] at h
          simp at h
    · have hen2 : C.enableRoll = false := by
        revert hen
        cases C.enableRoll <;> simp
      rw [rollPhase_disabled C i st hen2] at h
      simp at h

/-- Every event a day emits carries that day's index, and an expiry event
records the day's curve value as its totalValue. -/
theorem dayStep_events_spec (C : Ctx) (st : EngState) (i : ℕ) :
    ∀ e ∈ (dayStep C st i).2.events, e.index = i ∧
      (e.typ = .expiry → e.totalValue = (dayStep C st i).2.ccValue) := by
  intro e he
  simp only [dayStep] at he ⊢
  rw [List.mem_append] at he
  rcases he with h | h
  · rw [Option.mem_toList, Option.mem_def] at h
    have hr := rollPhase_rec_roll C i st e h
    refine ⟨hr.1, fun ht => ?_⟩
    rw [hr.2] at ht
    cases ht
  · rw [Option.mem_toList, Option.mem_def, Option.map_eq_some'] at h
    obtain ⟨nt, hnt, rfl⟩ := h
    exact ⟨rfl, fun _ => rfl⟩

/-- Every settlement of a run was emitted by some day in the day list, and
an expiry settlement's totalValue is that day's recorded curve value. -/
theorem runOn_events_spec (C : Ctx) :
    ∀ (days : List ℕ) (st : EngState) (e : SettlementEvent),
      e ∈ (((runOn C st days).1.map (fun o => o.events)).flatten) →
      ∃ k, days.get? k = some e.index ∧
        (e.typ = .expiry →
          ((runOn C st days).1.get? k).map (fun o => o.ccValue)
            = some e.totalValue) := by
  intro days
  induction days with
  | nil =>
    intro st e he
    simp [runOn] at he
  | cons i rest ih =>
    intro st e he
    simp only [runOn, List.map_cons, List.flatten_cons, List.mem_append] at he
    rcases he with h | h
    · have hd := dayStep_events_spec C st i e h
      refine ⟨0, by simp [hd.1], fun ht => ?_⟩
      simp only [runOn, List.get?_cons_zero, Option.map_some']
      rw [hd.2 ht]
    · obtain ⟨k, hk1, hk2⟩ := ih (dayStep C st i).1 e h
      refine ⟨k + 1, by simpa using hk1, fun ht => ?_⟩
      simp only [runOn, List.get?_cons_succ]
      exact hk2 ht

/-- Claim C4 (amended): every expiry settlement's totalValue equals the
covered-call curve value of the day it was emitted; roll settlements record
the post-close, pre-reopen value instead (see the counterexample). -/
theorem C4_amended_expiry_totalValue (ohlc : List OhlcRow) (params : BacktestParams) :
    ∀ e ∈ (runBacktest ohlc params).settlements, e.typ = .expiry →
      ∀ p, (runBacktest ohlc params).curve.get? e.index = some p →
        p.coveredCall = e.totalValue := by
  intro e he ht p hp
  have he2 : e ∈ (((runOn (mkCtx ohlc params) (initState (mkCtx ohlc params))
      (List.range (mkCtx ohlc params).n)).1.map (fun o => o.events)).flatten) := he
  obtain ⟨k, hk1, hk2⟩ := runOn_events_spec (mkCtx ohlc params)
    (List.range (mkCtx ohlc params).n) (initState (mkCtx ohlc params)) e he2
  have hkn : k < (mkCtx ohlc params).n := by
    by_contra hge
    rw [List.get?_eq_getElem?, List.getElem?_eq_none
      (by simpa using Nat.le_of_not_lt hge)] at hk1
    cases hk1
  have hek : e.index = k := by
    rw [List.get?_eq_getElem?, List.getElem?_range hkn] at hk1
    exact (Option.some.inj hk1).symm
  have hlen : (mkCtx ohlc params).dates.length = (mkCtx ohlc params).n := by
    show (ohlc.map (fun r => r.date)).length = ohlc.length
    simp
  obtain ⟨d, hd⟩ : ∃ d, (mkCtx ohlc params).dates.get? e.index = some d := by
    rw [hek]
    have hk2' : k < (mkCtx ohlc params).dates.length := by
      rw [hlen]
      exact hkn
    exact ⟨_, List.get?_eq_get hk2'⟩
  obtain ⟨p2, hp2, _, hcc⟩ := runFromCtx_curve_get (mkCtx ohlc params) e.index d hd
  have hpe : p = p2 := by
    have hsame : (runBacktest ohlc params).curve.get? e.index
        = (runFromCtx (mkCtx ohlc params)).curve.get? e.index := rfl
    rw [hsame, hp2] at hp
    exact (Option.some.inj hp).symm
  rw [hpe, hcc, hek]
  rw [List.getD_eq_getElem?_getD, List.getElem?_map, ← List.get?_eq_getElem?]
  rw [hk2 ht]
  rfl

/-- Counterexample to claim C4: in the 8-day rolling run, the roll emitted
on day 1 records totalValue 10040 (cash + shares * price immediately after
the close, before the reopened premium), while the day-1 curve value is
10080 - the premium of the reopened contract separates them. -/
theorem C4_counterexample :
    ¬ (∀ e ∈ (runBacktest ohlcA paramsRoll).settlements,
        ∀ p, (runBacktest ohlcA paramsRoll).curve.get? e.index = some p →
          p.coveredCall = e.totalValue) := by
  intro hclaim
  have hsett : (runBacktest ohlcA paramsRoll).settlements.get? 0
      = some { index := 1, date := ⟨2025, 1, 2⟩, totalValue := 10040, pnl := 0,
               strike := 100, underlying := 100.4, premium := 0.4, qty := 1,
               typ := .roll, delta := some 1, rollReason := some .scheduled } := by
    show ((((runOn ctxA (initState ctxA) (List.range ctxA.n)).1).map
        (fun o => o.events)).flatten).get? 0 = _
    rw [initState_A, rangeA]
    simp only [runOn, dayStepA0, dayStepA1]
    rfl
  have hmem := List.get?_mem hsett
  obtain ⟨p, hp, _, hcc⟩ := runFromCtx_curve_get ctxA 1 ⟨2025, 1, 2⟩
    (by
      show (ohlcA.map (fun r => r.date)).get? 1 = some _
      rw [datesA_map]
      rfl)
  have hccv : p.coveredCall = 10080 := by
    rw [hcc, initState_A, rangeA]
    simp only [runOn, dayStepA0, dayStepA1]
    rfl
  have hcontra := hclaim _ hmem p hp
  rw [hccv] at hcontra
  have h2 : (10080 : ℝ) = 10040 := hcontra
  norm_num at h2

/-- Witness for the amended C4: in the 3-day expiry run, the expiry event
of day 2 records totalValue 10040 and the day-2 curve value is 10040. -/
theorem C4_amended_expiry_totalValue_witness :
    ∃ e ∈ (runBacktest ohlcC paramsNoSkip).settlements, e.typ = .expiry ∧
      ∃ p, (runBacktest ohlcC paramsNoSkip).curve.get? e.index = some p ∧
        p.coveredCall = e.totalValue := by
  have hsett : (runBacktest ohlcC paramsNoSkip).settlements.get? 0
      = some { index := 2, date := ⟨2025, 1, 3⟩, totalValue := 10040, pnl := 0,
               strike := 100, underlying := 100.4, premium := 0.4, qty := 1,
               typ := .expiry, delta := some 1, rollReason := none } := by
    show ((((runOn ctxC (initState ctxC) (List.range ctxC.n)).1).map
        (fun o => o.events)).flatten).get? 0 = _
    rw [initState_C, rangeC]
    simp only [runOn, dayStepC0, dayStepC1, dayStepC2]
    rfl
  have hmem := List.get?_mem hsett
  obtain ⟨p, hp, _, _⟩ := runFromCtx_curve_get ctxC 2 ⟨2025, 1, 3⟩
    (by
      show (ohlcC.map (fun r => r.date)).get? 2 = some _
      rw [datesC_map]
      rfl)
  exact ⟨_, hmem, rfl, p, hp,
    C4_amended_expiry_totalValue ohlcC paramsNoSkip _ hmem rfl p hp⟩

/-! ### Claim C8 -/

/-- Bounds for the Zelen-Severo polynomial factor on [0, 1]: it is
nonnegative and at most its value 1.253314136 at k = 1. -/
theorem polyP_bounds (k : ℝ) (h0 : 0 ≤ k) (h1 : k ≤ 1) :
    0 ≤ 0.319381530 * k + (-0.356563782) * k ^ 2 + 1.781477937 * k ^ 3 +
      (-1.821255978) * k ^ 4 + 1.330274429 * k ^ 5 ∧
    0.319381530 * k + (-0.356563782) * k ^ 2 + 1.781477937 * k ^ 3 +
      (-1.821255978) * k ^ 4 + 1.330274429 * k ^ 5 ≤ 1.2534 := by
  have hQ : 0 ≤ 0.319381530 + (-0.356563782) * k + 1.781477937 * k ^ 2 +
      (-1.821255978) * k ^ 3 + 1.330274429 * k ^ 4 := by
    nlinarith [sq_nonneg (2 * 1.330274429 * k - 1.821255978), sq_nonneg k,
      sq_nonneg (2 * 1.15 * k - 0.356563782), mul_nonneg h0 h0,
      mul_nonneg (mul_nonneg h0 h0) h0]
  have hH : 0 ≤ 1.253314136 + 0.933932606 * k + 1.290496388 * k ^ 2 +
      (-0.490981549) * k ^ 3 + 1.330274429 * k ^ 4 := by
    nlinarith [mul_nonneg (mul_nonneg h0 h0) (sub_nonneg.mpr h1), sq_nonneg k,
      sq_nonneg (k * k), mul_nonneg h0 h0]
  constructor
  · nlinarith [mul_nonneg h0 hQ]
  · nlinarith [mul_nonneg (sub_nonneg.mpr h1) hH]

/-- The prefactor 1/sqrt(2 pi) is at most 0.4. -/
theorem one_div_sqrt_two_pi_le : 1 / Real.sqrt (2 * Real.pi) ≤ 0.4 := by
  have h2 : (2.5 : ℝ) ≤ Real.sqrt (2 * Real.pi) := by
    have h625 : Real.sqrt 6.25 = 2.5 := by
      rw [show (6.25 : ℝ) = 2.5 ^ 2 by norm_num]
      exact Real.sqrt_sq (by norm_num)
    rw [← h625]
    apply Real.sqrt_le_sqrt
    nlinarith [Real.pi_gt_d6]
  have h4 : 1 / Real.sqrt (2 * Real.pi) ≤ 1 / 2.5 :=
    one_div_le_one_div_of_le (by norm_num) h2
  linarith

/-- The polynomial normal-CDF approximation of the source stays inside
[0, 1]; moreover for a nonnegative argument it is at least 0.49 (its
central expression m stays inside [0.49, 1]). -/
theorem normCDF_bounds (x : ℝ) :
    0 ≤ normCDF x ∧ normCDF x ≤ 1 ∧ (0 ≤ x → 0.49 ≤ normCDF x) := by
  have hk0 : (0 : ℝ) ≤ 1 / (1 + 0.2316419 * |x|) := by positivity
  have hk1 : 1 / (1 + 0.2316419 * |x|) ≤ 1 := by
    rw [div_le_one (by positivity)]
    nlinarith [abs_nonneg x]
  obtain ⟨hP0, hP1⟩ := polyP_bounds _ hk0 hk1
  have hc0 : (0 : ℝ) ≤ 1 / Real.sqrt (2 * Real.pi) * Real.exp (-0.5 * x * x) := by
    positivity
  have hc1 : 1 / Real.sqrt (2 * Real.pi) * Real.exp (-0.5 * x * x) ≤ 0.4 := by
    have hx1 : Real.exp (-0.5 * x * x) ≤ 1 := by
      rw [Real.exp_le_one_iff]
      nlinarith [sq_nonneg x]
    have hs0 : (0 : ℝ) ≤ 1 / Real.sqrt (2 * Real.pi) := by positivity
    calc 1 / Real.sqrt (2 * Real.pi) * Real.exp (-0.5 * x * x)
        ≤ 1 / Real.sqrt (2 * Real.pi) * 1 := by
          exact mul_le_mul_of_nonneg_left hx1 hs0
      _ = 1 / Real.sqrt (2 * Real.pi) := mul_one _
      _ ≤ 0.4 := one_div_sqrt_two_pi_le
  have hcP0 : (0 : ℝ) ≤ (1 / Real.sqrt (2 * Real.pi) * Real.exp (-0.5 * x * x)) *
      (0.319381530 * (1 / (1 + 0.2316419 * |x|)) +
        (-0.356563782) * (1 / (1 + 0.2316419 * |x|)) ^ 2 +
        1.781477937 * (1 / (1 + 0.2316419 * |x|)) ^ 3 +
        (-1.821255978) * (1 / (1 + 0.2316419 * |x|)) ^ 4 +
        1.330274429 * (1 / (1 + 0.2316419 * |x|)) ^ 5) := mul_nonneg hc0 hP0
  have hcP1 : (1 / Real.sqrt (2 * Real.pi) * Real.exp (-0.5 * x * x)) *
      (0.319381530 * (1 / (1 + 0.2316419 * |x|)) +
        (-0.356563782) * (1 / (1 + 0.2316419 * |x|)) ^ 2 +
        1.781477937 * (1 / (1 + 0.2316419 * |x|)) ^ 3 +
        (-1.821255978) * (1 / (1 + 0.2316419 * |x|)) ^ 4 +
        1.330274429 * (1 / (1 + 0.2316419 * |x|)) ^ 5) ≤ 0.4 * 1.2534 :=
    mul_le_mul hc1 hP1 hP0 (by norm_num)
  generalize hg : (1 / Real.sqrt (2 * Real.pi) * Real.exp (-0.5 * x * x)) *
      (0.319381530 * (1 / (1 + 0.2316419 * |x|)) +
        (-0.356563782) * (1 / (1 + 0.2316419 * |x|)) ^ 2 +
        1.781477937 * (1 / (1 + 0.2316419 * |x|)) ^ 3 +
        (-1.821255978) * (1 / (1 + 0.2316419 * |x|)) ^ 4 +
        1.330274429 * (1 / (1 + 0.2316419 * |x|)) ^ 5) = cp at hcP0 hcP1
  have hN : normCDF x = if 0 ≤ x then 1 - cp else 1 - (1 - cp) := by
    rw [← hg]; rfl
  rw [hN]
  split_ifs with hx
  · exact ⟨by linarith, by linarith, fun h => by linarith⟩
  · exact ⟨by linarith, by linarith, fun h => absurd h hx⟩

/-- C8 (counterexample): with a negative dividend yield q = -9 (a value the
source accepts unchecked: r and q come straight from the caller), the delta
at S = K = 1, r = 0, sigma = 1, T = 1 exceeds 1, because the factor
exp(-q T) = exp 9 is larger than 1/normCDF(d1). So bsCallDelta is not
bounded by 1 for arbitrary caller-supplied q. -/
theorem C8_counterexample : 1 < bsCallDelta 1 1 0 (-9) 1 1 := by
  have hb : bsCallDelta 1 1 0 (-9) 1 1 =
      Real.exp (-(-9) * 1) * normCDF ((Real.log (1 / 1) +
        (0 - (-9) + 0.5 * 1 * 1) * 1) / (1 * Real.sqrt 1)) := by
    unfold bsCallDelta
    rw [if_neg (by norm_num)]
  have hd1 : ((Real.log (1 / 1) + (0 - (-9) + 0.5 * 1 * 1) * 1) /
      (1 * Real.sqrt 1) : ℝ) = 9.5 := by
    norm_num [Real.log_one, Real.sqrt_one]
  have hPhi : (0.49 : ℝ) ≤ normCDF 9.5 :=
    (normCDF_bounds (9.5 : ℝ)).2.2 (by norm_num)
  have hexp : (10 : ℝ) ≤ Real.exp (-(-9) * 1) := by
    rw [show (-(-9 : ℝ) * 1) = 9 by norm_num]
    have h := Real.add_one_le_exp (9 : ℝ)
    linarith
  rw [hb, hd1]
  have hmul : (10 : ℝ) * 0.49 ≤ Real.exp (-(-9) * 1) * normCDF 9.5 :=
    mul_le_mul hexp hPhi (by norm_num) (by linarith)
  linarith

/-- C8 (amended): with the added hypothesis that the dividend yield q is
nonnegative (true of every rate the engine itself passes in), the
Black-Scholes call delta of the source lies in the closed interval [0, 1]
for positive S, K and T, for any r and sigma. -/
theorem C8_amended_delta_in_unit (S K r q sigma T : ℝ)
    (_hS : 0 < S) (_hK : 0 < K) (hT : 0 < T) (hq : 0 ≤ q) :
    0 ≤ bsCallDelta S K r q sigma T ∧ bsCallDelta S K r q sigma T ≤ 1 := by
  by_cases h : sigma ≤ 0 ∨ T ≤ 0
  · have hb : bsCallDelta S K r q sigma T = if K < S then 1 else 0 := by
      unfold bsCallDelta
      rw [if_pos h]
    rw [hb]
    split_ifs <;> norm_num
  · have hb : bsCallDelta S K r q sigma T =
        Real.exp (-q * T) * normCDF ((Real.log (S / K) +
          (r - q + 0.5 * sigma * sigma) * T) / (sigma * Real.sqrt T)) := by
      unfold bsCallDelta
      rw [if_neg h]
    rw [hb]
    have he0 : 0 ≤ Real.exp (-q * T) := (Real.exp_pos _).le
    have he1 : Real.exp (-q * T) ≤ 1 := by
      rw [Real.exp_le_one_iff]
      nlinarith
    obtain ⟨hPhi0, hPhi1, _⟩ := normCDF_bounds ((Real.log (S / K) +
      (r - q + 0.5 * sigma * sigma) * T) / (sigma * Real.sqrt T))
    refine ⟨mul_nonneg he0 hPhi0, ?_⟩
    calc Real.exp (-q * T) * normCDF ((Real.log (S / K) +
          (r - q + 0.5 * sigma * sigma) * T) / (sigma * Real.sqrt T))
        ≤ 1 * 1 := mul_le_mul he1 hPhi1 hPhi0 (by norm_num)
      _ = 1 := mul_one 1

/-- C8 (amended, witness): the amended bound evaluated at
S = K = sigma = T = 1, r = q = 0. -/
theorem C8_amended_delta_in_unit_witness :
    (0 : ℝ) < 1 ∧ (0 : ℝ) ≤ 0 ∧
      (0 ≤ bsCallDelta 1 1 0 0 1 1 ∧ bsCallDelta 1 1 0 0 1 1 ≤ 1) :=
  ⟨by norm_num, le_refl 0,
    C8_amended_delta_in_unit 1 1 0 0 1 1 (by norm_num) (by norm_num)
      (by norm_num) (by norm_num)⟩
